import Mathlib

/-!
Verification of the Visualforce markup semantic-extraction engine
(`src/common/utils/visualForce/vfParser.ts`) against its natural-language
specification.

The TypeScript source is shallowly embedded:
* JavaScript strings are `String` / `List Char` (inputs in the theorems are
  ASCII, so UTF-16 lengths and code-point lengths coincide);
* the output of the external XML library (`fast-xml-parser`, configured with
  `ignoreAttributes: false, attributeNamePrefix: ''`) is modelled by the
  `JVal` tree type, and regular-expression scans are modelled by explicit
  character-list scanners with the same matching discipline;
* the mutable `VfParsedInfo` accumulator is threaded as explicit state;
* the mutable `pageBlockStack` of `traverseNode` (whose entries alias
  entries of `result.pageBlocks`) is modelled as a stack of indices into
  the `pageBlocks` list.
-/

namespace VfParse

/-- Whitespace test used for the JavaScript regex class `\s` and for
`String.prototype.trim` (restricted to the ASCII range, which covers all
inputs appearing in the theorems below). -/
def isJsSpace (c : Char) : Bool :=
  c = ' ' || c = '\t' || c = '\n' || c = '\r' || c = '\x0b' || c = '\x0c'

/-- Word character, the JavaScript regex class `\w` = `[A-Za-z0-9_]`. -/
def isWordChar (c : Char) : Bool :=
  (c ≥ 'a' && c ≤ 'z') || (c ≥ 'A' && c ≤ 'Z') || (c ≥ '0' && c ≤ '9') || c = '_'

/-- JavaScript `String.prototype.trim` on a character list. -/
def jsTrimList (l : List Char) : List Char :=
  (((l.dropWhile isJsSpace).reverse).dropWhile isJsSpace).reverse

/-- JavaScript `String.prototype.trim`. -/
def jsTrim (s : String) : String :=
  ⟨jsTrimList s.data⟩

/-- Substring test (`String.prototype.includes`), on character lists. -/
def containsSubList (sub l : List Char) : Bool :=
  l.tails.any (fun t => sub.isPrefixOf t)

/-- Substring test (`String.prototype.includes`). -/
def containsSub (s sub : String) : Bool :=
  containsSubList sub.data s.data

/-- Character membership test for a string (e.g. `key.includes(':')`). -/
def strHasChar (s : String) (c : Char) : Bool :=
  s.data.any (fun d => d = c)

/-- Prefix test (`String.prototype.startsWith`), kernel-reducible. -/
def jsStartsWith (s p : String) : Bool :=
  p.data.isPrefixOf s.data

/-- Drop the first `n` characters (`String.prototype.substring(n)`),
kernel-reducible. -/
def jsDrop (s : String) (n : Nat) : String :=
  ⟨s.data.drop n⟩

/-- JavaScript `substring(0, n)` / `slice(0, n)` (code points; the inputs
considered in the theorems are ASCII, where this agrees with UTF-16). -/
def strTake (s : String) (n : Nat) : String :=
  ⟨s.data.take n⟩

/-- Length of a JavaScript string, as code points (ASCII inputs only). -/
def strLen (s : String) : Nat :=
  s.data.length

/-! ### The embedded-expression scanner

Models the global regex `\{!\s*([^}]+?)\s*\}` of `extractApexExpressions`:
each occurrence of `{!` opens a match whose content runs to the next `}`
(the class `[^}]` cannot cross it); the surrounding `\s*` pair together
with `.trim()` amounts to trimming the captured gap.  A `{!}` with an
empty gap fails to match and scanning resumes right after the `{`. -/

/-- State machine for the expression regex.  `acc` is `some g` (reversed
gap collected so far) while inside a `{! … }` candidate. -/
def exprScanAux : Option (List Char) → List Char → List (List Char)
  | none, [] => []
  | none, '{' :: '!' :: r2 => exprScanAux (some []) r2
  | none, _ :: rest => exprScanAux none rest
  | some _, [] => []
  | some acc, '}' :: rest =>
    if acc.isEmpty then exprScanAux none rest
    else jsTrimList acc.reverse :: exprScanAux none rest
  | some acc, c :: rest => exprScanAux (some (c :: acc)) rest

/-- All contents captured by `\{!\s*([^}]+?)\s*\}` over a string, in order,
already trimmed (the code trims each capture before classifying). -/
def exprContents (s : String) : List String :=
  (exprScanAux none s.data).map (fun l => ⟨l⟩)

/-- First captured expression content, as used by the non-global
`attrValue.match(/\{!\s*([^}]+?)\s*\}/)` of the binding extractors. -/
def firstExprContent (s : String) : Option String :=
  (exprContents s).head?

/-! ### Expression classification heuristics -/

/-- Test of `/\w+\s*\(/` (`isFunction`): some word character followed by
optional whitespace and `(`. -/
def testFunction : List Char → Bool
  | [] => false
  | c :: rest =>
    (isWordChar c && (match rest.dropWhile isJsSpace with
                      | '(' :: _ => true
                      | _ => false))
    || testFunction rest

/-- Character class `[A-Za-z0-9_.]` from the property regex. -/
def isPropTail (c : Char) : Bool := isWordChar c || c = '.'

/-- Test of `/[A-Za-z0-9_]+\.[A-Za-z0-9_.]+/` (`isProperty`): some word
character, a dot, then a character of `[A-Za-z0-9_.]`. -/
def testProperty : List Char → Bool
  | [] => false
  | c :: rest =>
    (isWordChar c && (match rest with
                      | '.' :: d :: _ => isPropTail d
                      | _ => false))
    || testProperty rest

/-- Case-insensitive character comparison against a lowercase letter. -/
def ciIs (c low : Char) : Bool := c = low || c.toLower = low

/-- Word-character test on an optional character (`none` = string edge,
which counts as a non-word side for `\b`). -/
def isWordOpt : Option Char → Bool
  | none => false
  | some c => isWordChar c

/-- Alternatives of the boolean-expression regex
`\b(?:AND|OR|NOT|&&|\|\||==|!=|>|<)\b` that can match at the head of `l`
(case-insensitively for the word tokens).  Each candidate is returned as
(last character of the token, remaining characters after it). -/
def boolTokCands (l : List Char) : List (Char × List Char) :=
  (match l with
   | a :: b :: c :: rest =>
     (if ciIs a 'a' && ciIs b 'n' && ciIs c 'd' then [(c, rest)] else [])
     ++ (if ciIs a 'n' && ciIs b 'o' && ciIs c 't' then [(c, rest)] else [])
   | _ => []) ++
  (match l with
   | a :: b :: rest =>
     (if ciIs a 'o' && ciIs b 'r' then [(b, rest)] else [])
     ++ (if a = '&' && b = '&' then [(b, rest)] else [])
     ++ (if a = '|' && b = '|' then [(b, rest)] else [])
     ++ (if a = '=' && b = '=' then [(b, rest)] else [])
     ++ (if a = '!' && b = '=' then [(b, rest)] else [])
   | _ => []) ++
  (match l with
   | a :: rest => if a = '>' || a = '<' then [(a, rest)] else []
   | _ => [])

/-- Scan for the boolean regex: `prev` is the character before the current
position (for the leading `\b`). -/
def testBooleanAux : Option Char → List Char → Bool
  | _, [] => false
  | prev, c :: rest =>
    ((boolTokCands (c :: rest)).any fun p =>
      (isWordOpt prev != isWordChar c) && (isWordChar p.1 != isWordOpt p.2.head?))
    || testBooleanAux (some c) rest

/-- Test of `/\b(?:AND|OR|NOT|&&|\|\||==|!=|>|<)\b/i` (`isBooleanExpression`).
Note the `\b` assertions surround every alternative, so the symbol tokens
match only when flanked by word characters. -/
def testBoolean (l : List Char) : Bool :=
  testBooleanAux none l

/-! ### The dynamic value tree produced by the XML library

`fast-xml-parser` (with `preserveOrder: false`) returns a plain JavaScript
value: an object whose keys are tag/attribute names, an array for repeated
sibling tags, or a string for text.  `JVal` models such values; primitive
leaves are restricted to strings (with `trimValues: true` the library
yields strings for the tag/attribute values relevant here). -/

inductive JVal where
  | str : String → JVal
  | obj : List (String × JVal) → JVal
  | arr : List JVal → JVal

/-- Lookup of a key in a JavaScript object (`node[key]`); non-objects and
index keys of arrays yield `undefined` for the named keys used here. -/
def jlookup : JVal → String → Option JVal
  | .obj fields, key => (fields.find? (fun p => p.1 = key)).map (fun p => p.2)
  | _, _ => none

/-- JavaScript truthiness of `node[key]` (`undefined`, and the empty
string, are falsy; objects and arrays are truthy). -/
def jsTruthyVal : Option JVal → Bool
  | none => false
  | some (.str s) => s ≠ ""
  | some (.obj _) => true
  | some (.arr _) => true

/-- Join strings with a separator. -/
def joinWith (sep : String) : List String → String
  | [] => ""
  | [x] => x
  | x :: rest => x ++ sep ++ joinWith sep rest

/-- JavaScript `String(value)` coercion: strings unchanged, arrays join
their element strings with `,`, plain objects print `[object Object]`.
Recursion over the dynamic tree is bounded by explicit fuel; every
concrete evaluation below supplies enough of it, and no stated theorem
depends on the out-of-fuel default. -/
def jvalToString : Nat → JVal → String
  | _, .str s => s
  | _, .obj _ => "[object Object]"
  | 0, .arr _ => ""
  | fuel + 1, .arr items => joinWith "," (items.map (jvalToString fuel))

/-- JSON string escaping (quotes and backslashes; sufficient for the
values considered here). -/
def jsonEscape (s : String) : String :=
  ⟨s.data.flatMap (fun c => if c = '"' || c = '\\' then ['\\', c] else [c])⟩

/-- Model of `JSON.stringify` on the parser value trees (fuel-bounded). -/
def jsonStringify : Nat → JVal → String
  | _, .str s => "\"" ++ jsonEscape s ++ "\""
  | 0, .obj _ => ""
  | 0, .arr _ => ""
  | fuel + 1, .obj fields =>
    "\x7b" ++ joinWith ","
      (fields.map (fun p => "\"" ++ jsonEscape p.1 ++ "\":" ++ jsonStringify fuel p.2)) ++ "\x7d"
  | fuel + 1, .arr items =>
    "[" ++ joinWith "," (items.map (jsonStringify fuel)) ++ "]"

/-! ### The parsed-result data model (`VfParsedInfo` and friends) -/

/-- One occurrence of a namespaced component (`VfComponentUsage`); the
source field `namespace` is rendered `nspace` (`namespace` is a Lean
keyword), and the attribute map is an insertion-ordered association list. -/
structure VfComponentUsage where
  name : String
  nspace : String
  attributes : List (String × String)
deriving DecidableEq, Repr

/-- One simple field/variable reference (`VfFieldReference`). -/
structure VfFieldReference where
  expression : String
  context : String
  sObjectName : Option String := none
  fieldName : Option String := none
deriving DecidableEq, Repr

/-- A `pageBlock` entry of `VfParsedInfo.pageBlocks`. -/
structure PageBlock where
  title : Option String := none
  id : Option String := none
  components : List VfComponentUsage := []
deriving DecidableEq, Repr

/-- An `actionSupport` entry of `VfParsedInfo.actionSupports`. -/
structure ActionSupport where
  event : Option String := none
  reRender : Option String := none
  action : Option String := none
  status : Option String := none
deriving DecidableEq, Repr

/-- An `outputPanel` entry of `VfParsedInfo.outputPanels`. -/
structure OutputPanel where
  id : Option String := none
  layout : Option String := none
  contentPreview : Option String := none
deriving DecidableEq, Repr

/-- Script reference type tags. -/
inductive ScriptType where
  | staticResource
  | inlineScript
  | externalUrl
deriving DecidableEq, Repr

/-- A `scripts` entry of `VfParsedInfo`. -/
structure ScriptRef where
  type : ScriptType
  value : String
deriving DecidableEq, Repr

/-- The aggregate result (`VfParsedInfo`).  Optional scalars are `Option`;
`undefined` string fields of the source are `none`. -/
structure VfParsedInfo where
  controllerName : Option String := none
  customControllerName : Option String := none
  extensionNames : List String := []
  components : List VfComponentUsage := []
  fieldReferences : List VfFieldReference := []
  apexExpressions : List String := []
  formCount : Nat := 0
  hasRemoteObjects : Bool := false
  hasStaticResources : Bool := false
  templateFragments : List String := []
  apiVersion : Option String := none
  pageLabel : Option String := none
  inputBindings : List String := []
  buttonActions : List String := []
  pageBlocks : List PageBlock := []
  actionSupports : List ActionSupport := []
  outputPanels : List OutputPanel := []
  sObjectReferences : List String := []
  detailedFieldReferences : List String := []
  customComponents : List String := []
  scripts : List ScriptRef := []
deriving DecidableEq, Repr

/-- Fresh result with guaranteed (empty) collections (`createEmptyResult`). -/
def createEmptyResult : VfParsedInfo := {}

/-! ### Deduplication and expression sorting -/

/-- Insertion-ordered deduplication, the behaviour of
`Array.from(new Set(arr))` (first occurrence kept). -/
def jsSetDedupAux {α : Type} [DecidableEq α] (seen : List α) : List α → List α
  | [] => []
  | a :: l => if a ∈ seen then jsSetDedupAux seen l else a :: jsSetDedupAux (a :: seen) l

/-- `Array.from(new Set(arr))`. -/
def jsSetDedup {α : Type} [DecidableEq α] (l : List α) : List α :=
  jsSetDedupAux [] l

/-- Complexity rank of `uniqueAndSortExpressions`: 2 for a `(`, else 1 for
a `.`, else 0. -/
def complexityRank (s : String) : Nat :=
  if strHasChar s '(' then 2 else if strHasChar s '.' then 1 else 0

/-- Descending-rank comparison; `Array.prototype.sort` with the comparator
`bC - aC` is a stable sort placing higher ranks first, which insertion
sort with this total preorder reproduces exactly. -/
def rankGe (a b : String) : Prop := complexityRank b ≤ complexityRank a

instance : DecidableRel rankGe := fun _ _ => Nat.decLe _ _

/-- `uniqueAndSortExpressions`: dedup then stable sort by descending
complexity rank. -/
def uniqueAndSortExpressions (arr : List String) : List String :=
  List.insertionSort rankGe (jsSetDedup arr)

/-! ### Expression extraction into the accumulator -/

/-- An expression content is pushed to `apexExpressions` (rather than
emitted as a `FieldReference`) when it is function-like, boolean-like or
property-like. -/
def isApexExprContent (e : String) : Bool :=
  testFunction e.data || testBoolean e.data || testProperty e.data

/-- `extractApexExpressions(text, result, context)`: classify every
embedded expression of `text`; function/boolean/property contents go to
`apexExpressions`, the rest become `fieldReferences` tagged with
`context`. -/
def extractApexExpressions (text : String) (result : VfParsedInfo)
    (context : String := "unknown") : VfParsedInfo :=
  if text = "" then result
  else
    let es := exprContents text
    { result with
        apexExpressions := result.apexExpressions ++ es.filter isApexExprContent,
        fieldReferences := result.fieldReferences ++
          (es.filter (fun e => !(isApexExprContent e))).map
            (fun e => { expression := e, context := context }) }

/-- `extractInputBindings`: first embedded expression of the attribute
value, pushed if non-empty and not already present. -/
def extractInputBindings (attrValue : String) (result : VfParsedInfo) : VfParsedInfo :=
  if attrValue = "" then result
  else
    match firstExprContent attrValue with
    | some b =>
      if b ≠ "" && !(result.inputBindings.contains b) then
        { result with inputBindings := result.inputBindings ++ [b] }
      else result
    | none => result

/-- `extractButtonActions`: like `extractInputBindings` for `action`. -/
def extractButtonActions (attrValue : String) (result : VfParsedInfo) : VfParsedInfo :=
  if attrValue = "" then result
  else
    match firstExprContent attrValue with
    | some a =>
      if a ≠ "" && !(result.buttonActions.contains a) then
        { result with buttonActions := result.buttonActions ++ [a] }
      else result
    | none => result

/-! ### Attribute parsing (`parseAttributes`) -/

/-- JavaScript object property assignment `attributes[k] = v` on an
insertion-ordered association list. -/
def setAttr (m : List (String × String)) (k v : String) : List (String × String) :=
  if m.any (fun p => p.1 = k) then m.map (fun p => if p.1 = k then (k, v) else p)
  else m ++ [(k, v)]

/-- Lookup in the attribute map (`attributes.title` etc.). -/
def lookupAttr (m : List (String × String)) (k : String) : Option String :=
  (m.find? (fun p => p.1 = k)).map (fun p => p.2)

/-- Common per-attribute handling of `parseAttributes` (both the `@_` and
the plain-key branch run this same sequence): record the raw value, scan
it for expressions, and apply the `value`/`action`/`rendered` special
cases (`rendered` is scanned a second time). -/
def attrHandle (nspace name attrName attrValue : String)
    (acc : List (String × String) × VfParsedInfo) :
    List (String × String) × VfParsedInfo :=
  let ctx := nspace ++ ":" ++ name ++ "." ++ attrName
  let attrs := setAttr acc.1 attrName attrValue
  let st := extractApexExpressions attrValue acc.2 ctx
  let st := if attrName = "value" && (jsStartsWith name "input" || jsStartsWith name "select")
            then extractInputBindings attrValue st else st
  let st := if attrName = "action" &&
               (containsSub name "commandButton" || containsSub name "commandLink" || name = "button")
            then extractButtonActions attrValue st else st
  let st := if attrName = "rendered" then extractApexExpressions attrValue st ctx else st
  (attrs, st)

/-- One key of the attribute loop: `@_`-prefixed keys are attributes with
the prefix stripped; other keys are treated as attributes only when their
value is primitive and the key is neither namespaced nor `#`-special. -/
def attrStep (fuel : Nat) (nspace name : String)
    (acc : List (String × String) × VfParsedInfo)
    (attrKey : String) (v : JVal) : List (String × String) × VfParsedInfo :=
  if jsStartsWith attrKey "@_" then
    attrHandle nspace name (jsDrop attrKey 2) (jvalToString fuel v) acc
  else
    match v with
    | .str s =>
      if !(strHasChar attrKey ':') && !(jsStartsWith attrKey "#") then
        attrHandle nspace name attrKey s acc
      else acc
    | _ => acc

/-- Attribute loop over an object node. -/
def parseAttrFields (fuel : Nat) (nspace name : String)
    (acc : List (String × String) × VfParsedInfo) :
    List (String × JVal) → List (String × String) × VfParsedInfo
  | [] => acc
  | (k, v) :: rest => parseAttrFields fuel nspace name (attrStep fuel nspace name acc k v) rest

/-- Attribute loop over an array node (`Object.keys` of an array are the
index strings). -/
def parseAttrItems (fuel : Nat) (nspace name : String) (i : Nat)
    (acc : List (String × String) × VfParsedInfo) :
    List JVal → List (String × String) × VfParsedInfo
  | [] => acc
  | v :: rest => parseAttrItems fuel nspace name (i + 1) (attrStep fuel nspace name acc (toString i) v) rest

/-- `parseAttributes(valueNode, namespace, name, result)`. -/
def parseAttributes (fuel : Nat) (valueNode : JVal) (nspace name : String)
    (result : VfParsedInfo) : List (String × String) × VfParsedInfo :=
  match valueNode with
  | .str _ => ([], result)
  | .obj fields => parseAttrFields fuel nspace name ([], result) fields
  | .arr items => parseAttrItems fuel nspace name 0 ([], result) items

/-! ### Content preview (`extractContentPreview`) -/

/-- `extractContentPreview(nodeValue)`: prefer the direct `#text` child
(trimmed, truncated to 100 characters plus `...`); otherwise a JSON
structural summary truncated at 120 characters (plus `...` when cut). -/
def extractContentPreview (fuel : Nat) : JVal → Option String
  | .str _ => none
  | .obj fields =>
    match jlookup (.obj fields) "#text" with
    | some (.str txt) =>
      let t := jsTrim txt
      some (if strLen t > 100 then strTake t 100 ++ "..." else t)
    | _ =>
      let s := strTake (jsonStringify fuel (.obj fields)) 120
      some (if strLen s = 120 then s ++ "..." else s)
  | .arr items =>
    let s := strTake (jsonStringify fuel (.arr items)) 120
    some (if strLen s = 120 then s ++ "..." else s)

/-! ### Tree traversal (`traverseNode`)

The mutable `pageBlockStack` holds aliases of entries of
`result.pageBlocks`; it is modelled as a stack of indices into that list,
passed down the recursion (the push/pop pair around a block's children is
balanced, so the stack seen by the following sibling is the caller's).
The recursion over the dynamic tree is bounded by explicit fuel, which
decreases exactly on descent into a child value. -/

/-- Namespace part of `key.split(':', 2)`. -/
def compNspace (key : String) : String :=
  ⟨key.data.takeWhile (fun c => c ≠ ':')⟩

/-- Name part of `key.split(':', 2)` (the remainder after the second `:`
is discarded, as with the JavaScript limit argument). -/
def compName (key : String) : String :=
  ⟨((key.data.dropWhile (fun c => c ≠ ':')).drop 1).takeWhile (fun c => c ≠ ':')⟩

/-- Replace the element at an index (used for pushing a component into
the aliased block object). -/
def modifyAt {α : Type} : List α → Nat → (α → α) → List α
  | [], _, _ => []
  | b :: rest, 0, f => f b :: rest
  | b :: rest, n + 1, f => b :: modifyAt rest n f

/-- Append a component to the block currently on top of the stack, if
any (`pageBlockStack[pageBlockStack.length - 1].components.push(...)`). -/
def attachToTop (stack : List Nat) (comp : VfComponentUsage) (st : VfParsedInfo) : VfParsedInfo :=
  match stack with
  | [] => st
  | i :: _ =>
    let push := fun (b : PageBlock) => { b with components := b.components ++ [comp] }
    { st with pageBlocks := modifyAt st.pageBlocks i push }

/-- Shape of the recursive `traverse` closure, abstracted so that the
loop bodies below stay non-recursive. -/
def TraverseFn : Type :=
  List Nat → String → VfParsedInfo → JVal → VfParsedInfo

/-- `Object.keys` iteration over an array value passed directly to
`traverse` (the keys are the index strings, never component-like and
never `#text`): each item is recursed into with context `ctx.i`. -/
def arrKeysLoop (recur : TraverseFn) (stack : List Nat) (context : String) (i : Nat)
    (st : VfParsedInfo) : List JVal → VfParsedInfo
  | [] => st
  | v :: rest =>
    arrKeysLoop recur stack context (i + 1)
      (recur stack (context ++ "." ++ toString i) st v) rest

/-- In-loop iteration over an array child (lines 258-261 of the source):
every item is recursed into with the same `newContext`. -/
def itemsLoop (recur : TraverseFn) (stack : List Nat) (context : String)
    (st : VfParsedInfo) : List JVal → VfParsedInfo
  | [] => st
  | v :: rest => itemsLoop recur stack context (recur stack context st v) rest

/-- Push a component onto the global `components` list (line 200). -/
def pushComponentUpd (comp : VfComponentUsage) (st : VfParsedInfo) : VfParsedInfo :=
  { st with components := st.components ++ [comp] }

/-- Record a custom-namespace component name (lines 202-204). -/
def pushCustomUpd (nspace name : String) (st : VfParsedInfo) : VfParsedInfo :=
  if nspace = "c" then { st with customComponents := st.customComponents ++ [name] } else st

/-- Increment the form count for `apex:form` (lines 210-211). -/
def formUpd (nspace name : String) (st : VfParsedInfo) : VfParsedInfo :=
  if nspace = "apex" && name = "form" then { st with formCount := st.formCount + 1 } else st

/-- Record an `apex:actionSupport` descriptor (lines 228-234). -/
def actionSupportUpd (nspace name : String) (attrs : List (String × String))
    (st : VfParsedInfo) : VfParsedInfo :=
  if nspace = "apex" && name = "actionSupport" then
    { st with actionSupports := st.actionSupports ++
        [{ event := lookupAttr attrs "event", reRender := lookupAttr attrs "reRender",
           action := lookupAttr attrs "action", status := lookupAttr attrs "status" }] }
  else st

/-- Record an `apex:outputPanel` descriptor (lines 235-241). -/
def outputPanelUpd (fuel : Nat) (nspace name : String) (attrs : List (String × String))
    (value : JVal) (st : VfParsedInfo) : VfParsedInfo :=
  if nspace = "apex" && name = "outputPanel" then
    { st with outputPanels := st.outputPanels ++
        [{ id := lookupAttr attrs "id", layout := lookupAttr attrs "layout",
           contentPreview := extractContentPreview fuel value }] }
  else st

/-- Create and append a fresh block from the `title`/`id` attributes
(lines 213-218). -/
def pushBlockUpd (attrs : List (String × String)) (st : VfParsedInfo) : VfParsedInfo :=
  { st with pageBlocks := st.pageBlocks ++
      [{ title := lookupAttr attrs "title", id := lookupAttr attrs "id", components := [] }] }

/-- The generic child recursion at the end of the key loop (lines
256-265): arrays are iterated item-wise under the same `newContext`,
objects recursed into, strings ignored. -/
def recurseChildren (recur : TraverseFn) (stack : List Nat) (newContext : String)
    (st : VfParsedInfo) : JVal → VfParsedInfo
  | .str _ => st
  | .arr items => itemsLoop recur stack newContext st items
  | .obj fields => recur stack newContext st (.obj fields)

/-- Handling of a component-like key (lines 188-248): parse attributes,
push the usage, then either the `pageBlock` branch — push a fresh block,
recurse with it on top of the stack, pop, and `continue` (skipping the
in-block attach and the generic recursion) — or the ordinary branch with
the form/actionSupport/outputPanel special cases, the attach to the
active block, and the generic child recursion. -/
def keyStepComponent (fuel : Nat) (recur : TraverseFn) (stack : List Nat)
    (newContext : String) (st : VfParsedInfo) (nspace name : String) (value : JVal) :
    VfParsedInfo :=
  let pr := parseAttributes fuel value nspace name st
  let comp : VfComponentUsage := { name := name, nspace := nspace, attributes := pr.1 }
  let st2 := pushCustomUpd nspace name (pushComponentUpd comp pr.2)
  if nspace = "apex" && name = "pageBlock" then
    recur (st2.pageBlocks.length :: stack) newContext (pushBlockUpd pr.1 st2) value
  else
    recurseChildren recur stack newContext
      (attachToTop stack comp
        (outputPanelUpd fuel nspace name pr.1 value
          (actionSupportUpd nspace name pr.1 (formUpd nspace name st2)))) value

/-- Context extension for a key (line 183): `@_` prefixes are stripped. -/
def newContextOf (context key : String) : String :=
  if jsStartsWith key "@_" then context ++ "." ++ jsDrop key 2
  else context ++ "." ++ key

/-- The `#text` handling of the key loop (lines 251-254): a non-blank
text child is scanned for expressions under the parent context. -/
def textNodeUpd (key context : String) (st : VfParsedInfo) (value : JVal) : VfParsedInfo :=
  if key = "#text" then
    match value with
    | .str s => if jsTrim s ≠ "" then extractApexExpressions s st context else st
    | _ => st
  else st

/-- Body of the key loop of `traverse` for a single key/value pair. -/
def keyStep (fuel : Nat) (recur : TraverseFn) (stack : List Nat) (context : String)
    (st : VfParsedInfo) (key : String) (value : JVal) : VfParsedInfo :=
  if strHasChar key ':' && key ≠ "#text" then
    if compNspace key ≠ "" && compName key ≠ "" then
      keyStepComponent fuel recur stack (newContextOf context key) st
        (compNspace key) (compName key) value
    else
      recurseChildren recur stack (newContextOf context key) st value
  else
    recurseChildren recur stack (newContextOf context key)
      (textNodeUpd key context st value) value

/-- The key loop of `traverse` over an object node. -/
def pairsLoop (fuel : Nat) (recur : TraverseFn) (stack : List Nat) (context : String)
    (st : VfParsedInfo) : List (String × JVal) → VfParsedInfo
  | [] => st
  | (key, value) :: rest =>
    pairsLoop fuel recur stack context (keyStep fuel recur stack context st key value) rest

/-- The recursive `traverse` on a value: strings are ignored, arrays are
iterated as objects with index keys, objects by their keys.  Fuel bounds
the descent depth; with zero fuel the state is returned unchanged. -/
def traverseVal : Nat → List Nat → String → VfParsedInfo → JVal → VfParsedInfo
  | 0, _, _, st, _ => st
  | fuel + 1, stack, context, st, v =>
    match v with
    | .str _ => st
    | .arr items => arrKeysLoop (traverseVal fuel) stack context 0 st items
    | .obj fields => pairsLoop fuel (traverseVal fuel) stack context st fields

/-- `traverseNode(root, result, rootContext)`: the block stack starts
empty. -/
def traverseNode (fuel : Nat) (root : JVal) (result : VfParsedInfo)
    (rootContext : String := "unknown") : VfParsedInfo :=
  traverseVal fuel [] rootContext result root

/-! ### Raw-text scanners (regex models)

Each JavaScript regex used on the raw markup is modelled by an explicit
scanner.  Position scanning is equivalent to the `g`-flag scanning of the
source wherever a match cannot contain the start of another match (the
patterns used here cannot overlap themselves); the consumptive scanners
carry internal fuel initialised to more than the input length, which a
scan consuming at least one character per step can never exhaust. -/

/-- Match a literal pattern (given lowercase) case-insensitively at the
head of a list, returning the remainder. -/
def ciPrefix : List Char → List Char → Option (List Char)
  | [], l => some l
  | _ :: _, [] => none
  | p :: ps, c :: cs => if ciIs c p then ciPrefix ps cs else none

/-- Split at the first case-insensitive occurrence of a pattern:
`some (before, after)` with `after` the remainder past the pattern. -/
def splitAtCi (pat : List Char) : List Char → Option (List Char × List Char)
  | [] => none
  | c :: rest =>
    match ciPrefix pat (c :: rest) with
    | some after => some ([], after)
    | none => (splitAtCi pat rest).map (fun p => (c :: p.1, p.2))

/-- Count of `/<apex:form\b/gi` matches: occurrences of the literal
(case-insensitively) followed by a non-word character or the end. -/
def countFormAux : List Char → Nat
  | [] => 0
  | c :: rest =>
    (match ciPrefix ("<apex:form".data) (c :: rest) with
     | some after => if isWordOpt after.head? then 0 else 1
     | none => 0) + countFormAux rest

/-- `(vfContent.match(/<apex:form\b/gi) || []).length`. -/
def countFormTags (s : String) : Nat :=
  countFormAux s.data

/-- Attempt of `name\s*=\s*q(.*?)q` at the head of a list (the `.` class
excludes newlines); returns the capture. -/
def attrMatchAt (q : Char) (pat l : List Char) : Option String :=
  match ciPrefix pat l with
  | none => none
  | some after =>
    match after.dropWhile isJsSpace with
    | '=' :: a2 =>
      match a2.dropWhile isJsSpace with
      | c :: a4 =>
        if c = q then
          let cap := a4.takeWhile (fun d => d ≠ q && d ≠ '\n')
          match a4.dropWhile (fun d => d ≠ q && d ≠ '\n') with
          | d :: _ => if d = q then some ⟨cap⟩ else none
          | [] => none
        else none
      | [] => none
    | _ => none

/-- First match of `name\s*=\s*q(.*?)q` anywhere in the list. -/
def attrScanQ (q : Char) (pat : List Char) : List Char → Option String
  | [] => none
  | c :: rest =>
    match attrMatchAt q pat (c :: rest) with
    | some v => some v
    | none => attrScanQ q pat rest

/-- `extractAttrValue(attrsString, name)`: the double-quoted pattern is
tried over the whole string, then the single-quoted one. -/
def extractAttrValue (attrsString name : String) : Option String :=
  match attrScanQ '"' name.data attrsString.data with
  | some v => some v
  | none => attrScanQ (Char.ofNat 39) name.data attrsString.data

/-- First match of `pat\s*=\s*"([^"]*)"` (case-insensitive), the shape of
the `standardController` / `extensions` fallback regexes (the capture may
be empty and may span lines). -/
def findQuotedCi (pat : List Char) : List Char → Option String
  | [] => none
  | c :: rest =>
    (match ciPrefix pat (c :: rest) with
     | some after =>
       match after.dropWhile isJsSpace with
       | '=' :: a2 =>
         match a2.dropWhile isJsSpace with
         | '"' :: a3 =>
           (match a3.dropWhile (fun d => d ≠ '"') with
            | _ :: _ => some (⟨a3.takeWhile (fun d => d ≠ '"')⟩ : String)
            | [] => none)
         | _ => none
       | _ => none
     | none => none).elim (findQuotedCi pat rest) some

/-- Character class `[a-zA-Z0-9_-]` of the fallback component regex. -/
def isCompChar (c : Char) : Bool := isWordChar c || c = '-'

/-- All matches of `/<([a-zA-Z0-9_-]+):([a-zA-Z0-9_-]+)/g` as
(namespace, name) pairs, in order. -/
def scanComps : List Char → List (String × String)
  | [] => []
  | c :: rest =>
    (if c = '<' then
      let ns := rest.takeWhile isCompChar
      match rest.dropWhile isCompChar with
      | ':' :: r3 =>
        let nm := r3.takeWhile isCompChar
        if ns ≠ [] && nm ≠ [] then [((⟨ns⟩ : String), (⟨nm⟩ : String))] else []
      | _ => []
     else []) ++ scanComps rest

/-- The `seen`-guarded component push loop of `_extractBasicVfInfo`. -/
def basicCompsGo (seen : List String) (comps : List VfComponentUsage)
    (custom : List String) : List (String × String) → List VfComponentUsage × List String
  | [] => (comps, custom)
  | (ns, nm) :: rest =>
    let key := ns ++ ":" ++ nm
    if key ∈ seen then basicCompsGo seen comps custom rest
    else
      basicCompsGo (key :: seen)
        (comps ++ [{ name := nm, nspace := ns, attributes := [] }])
        (custom ++ (if ns = "c" then [nm] else [])) rest

/-- Split a string at every occurrence of a character (JavaScript
`split(c)`: an empty string yields `[""]`). -/
def splitOnCharGo (c : Char) (acc : List Char) : List Char → List String
  | [] => [⟨acc.reverse⟩]
  | d :: rest =>
    if d = c then (⟨acc.reverse⟩ : String) :: splitOnCharGo c [] rest
    else splitOnCharGo c (d :: acc) rest

/-- JavaScript `String.prototype.split` with a single-character separator. -/
def splitOnChar (c : Char) (s : String) : List String :=
  splitOnCharGo c [] s.data

/-- `_extractBasicVfInfo(vfContent, result)`: regex-only reconstruction of
controller name, extension list and deduplicated component list. -/
def _extractBasicVfInfo (vfContent : String) (result : VfParsedInfo) : VfParsedInfo :=
  let r1 := match findQuotedCi ("standardcontroller".data) vfContent.data with
            | some v => { result with controllerName := some v }
            | none => result
  let r2 := match findQuotedCi ("extensions".data) vfContent.data with
            | some v => { r1 with extensionNames := (splitOnChar ',' v).map jsTrim }
            | none => r1
  let pr := basicCompsGo [] r2.components r2.customComponents (scanComps vfContent.data)
  { r2 with components := pr.1, customComponents := pr.2 }

/-! ### Script extraction (`extractScriptTags`) -/

/-- Scan for `/<script\b([^>]*)>([\s\S]*?)<\/script>/gi`: attributes run to
the first `>`, the body lazily to the first closing tag; an external `src`
(tried double- then single-quoted, non-empty) wins, otherwise a non-blank
body yields an inline snippet truncated at 200 characters. -/
def scriptScanGo : Nat → List Char → List ScriptRef
  | 0, _ => []
  | _, [] => []
  | fuel + 1, c :: rest =>
    match ciPrefix ("<script".data) (c :: rest) with
    | some after =>
      if isWordOpt after.head? then scriptScanGo fuel rest
      else
        let attrs := after.takeWhile (fun d => d ≠ '>')
        match after.dropWhile (fun d => d ≠ '>') with
        | _ :: afterGt =>
          match splitAtCi ("</script>".data) afterGt with
          | some (body, afterClose) =>
            let srcM := match attrScanQ '"' ("src".data) attrs with
                        | some v => some v
                        | none => attrScanQ (Char.ofNat 39) ("src".data) attrs
            let bodyT := jsTrimList body
            let snippet : String :=
              ⟨bodyT.take 200⟩ ++ (if bodyT.length > 200 then "..." else "")
            let inlineEntry : List ScriptRef :=
              if bodyT ≠ [] then [{ type := .inlineScript, value := snippet }] else []
            let entry : List ScriptRef :=
              match srcM with
              | some s => if s ≠ "" then [{ type := .externalUrl, value := s }] else inlineEntry
              | none => inlineEntry
            entry ++ scriptScanGo fuel afterClose
          | none => scriptScanGo fuel rest
        | [] => scriptScanGo fuel rest
    | none => scriptScanGo fuel rest

/-- Window search for `attr\s*=\s*"(.*?)"` inside a `[^>]*` window (stops
at `>`), returning the capture and the remainder after the closing quote. -/
def windowAttrCaptureDot (attr : List Char) : List Char → Option (String × List Char)
  | [] => none
  | c :: rest =>
    if c = '>' then none
    else
      (match ciPrefix attr (c :: rest) with
       | some a1 =>
         match a1.dropWhile isJsSpace with
         | '=' :: a2 =>
           match a2.dropWhile isJsSpace with
           | '"' :: a3 =>
             let cap := a3.takeWhile (fun d => d ≠ '"' && d ≠ '\n')
             (match a3.dropWhile (fun d => d ≠ '"' && d ≠ '\n') with
              | d :: a4 => if d = '"' then some ((⟨cap⟩ : String), a4) else none
              | [] => none)
           | _ => none
         | _ => none
       | none => none).elim (windowAttrCaptureDot attr rest) some

/-- Window search for `attr\s*=\s*"([^"]+)"` inside a `[^>]*` window (the
capture may span lines but must be non-empty). -/
def windowAttrCaptureCls (attr : List Char) : List Char → Option (String × List Char)
  | [] => none
  | c :: rest =>
    if c = '>' then none
    else
      (match ciPrefix attr (c :: rest) with
       | some a1 =>
         match a1.dropWhile isJsSpace with
         | '=' :: a2 =>
           match a2.dropWhile isJsSpace with
           | '"' :: a3 =>
             let cap := a3.takeWhile (fun d => d ≠ '"')
             (match a3.dropWhile (fun d => d ≠ '"') with
              | _ :: a4 => if cap ≠ [] then some ((⟨cap⟩ : String), a4) else none
              | [] => none)
           | _ => none
         | _ => none
       | none => none).elim (windowAttrCaptureCls attr rest) some

/-- Scan for `/<apex:includeScript\s+[^>]*value\s*=\s*"(.*?)"[^>]*\/?>/gi`;
each non-empty capture becomes a Static Resource entry. -/
def includeScriptScanGo : Nat → List Char → List ScriptRef
  | 0, _ => []
  | _, [] => []
  | fuel + 1, c :: rest =>
    match ciPrefix ("<apex:includescript".data) (c :: rest) with
    | some after =>
      match after with
      | w :: _ =>
        if isJsSpace w then
          match windowAttrCaptureDot ("value".data) (after.dropWhile isJsSpace) with
          | some (cap, afterCap) =>
            match afterCap.dropWhile (fun d => d ≠ '>') with
            | _ :: afterGt =>
              (if cap ≠ "" then [({ type := .staticResource, value := cap } : ScriptRef)] else [])
                ++ includeScriptScanGo fuel afterGt
            | [] => includeScriptScanGo fuel rest
          | none => includeScriptScanGo fuel rest
        else includeScriptScanGo fuel rest
      | [] => includeScriptScanGo fuel rest
    | none => includeScriptScanGo fuel rest

/-- `extractScriptTags(vfContent, result)`: script entries are pushed and
then deduplicated by full structural equality (the source round-trips
through `JSON.stringify`). -/
def extractScriptTags (vfContent : String) (result : VfParsedInfo) : VfParsedInfo :=
  let n := vfContent.data.length + 1
  { result with
      scripts := jsSetDedup (result.scripts
        ++ scriptScanGo n vfContent.data
        ++ includeScriptScanGo n vfContent.data) }

/-! ### Template fragments (`extractTemplateFragments`) -/

/-- Scan for `/<tag\s+[^>]*attr\s*=\s*"([^"]+)"/gi`, labelling each
capture. -/
def tagAttrScanGo (tag attr : List Char) (label : String) : Nat → List Char → List String
  | 0, _ => []
  | _, [] => []
  | fuel + 1, c :: rest =>
    match ciPrefix tag (c :: rest) with
    | some after =>
      match after with
      | w :: _ =>
        if isJsSpace w then
          match windowAttrCaptureCls attr (after.dropWhile isJsSpace) with
          | some (cap, afterCap) => (label ++ ": " ++ cap) :: tagAttrScanGo tag attr label fuel afterCap
          | none => tagAttrScanGo tag attr label fuel rest
        else tagAttrScanGo tag attr label fuel rest
      | [] => tagAttrScanGo tag attr label fuel rest
    | none => tagAttrScanGo tag attr label fuel rest

/-- `extractTemplateFragments(vfContent)`: the four labelled patterns, in
order, deduplicated. -/
def extractTemplateFragments (vfContent : String) : List String :=
  let n := vfContent.data.length + 1
  let l := vfContent.data
  jsSetDedup
    (tagAttrScanGo ("<apex:composition".data) ("template".data) "Template" n l
     ++ tagAttrScanGo ("<apex:insert".data) ("name".data) "Insert Point" n l
     ++ tagAttrScanGo ("<apex:define".data) ("name".data) "Content Definition" n l
     ++ tagAttrScanGo ("<apex:composition".data) ("define".data) "Composition Definition" n l)

/-! ### Fallback binding/action extraction
(`extractInputBindingsAndButtonActions`) -/

/-- Window search for `\battr\s*=\s*"\{!([^}]+)\}"` inside a `[^>]*`
window; `prev` tracks the character before the position for the leading
word boundary.  Returns the raw capture and the remainder after `}"`. -/
def bindingInWindow (attr : List Char) (prev : Char) : List Char → Option (String × List Char)
  | [] => none
  | c :: rest =>
    if c = '>' then none
    else
      (if !(isWordChar prev) then
        match ciPrefix attr (c :: rest) with
        | some a1 =>
          match a1.dropWhile isJsSpace with
          | '=' :: a2 =>
            match a2.dropWhile isJsSpace with
            | '"' :: '{' :: '!' :: a3 =>
              let cap := a3.takeWhile (fun d => d ≠ '}')
              (match a3.dropWhile (fun d => d ≠ '}') with
               | '}' :: '"' :: a4 => if cap ≠ [] then some ((⟨cap⟩ : String), a4) else none
               | _ => none)
            | _ => none
          | _ => none
        | none => none
       else none).elim (bindingInWindow attr c rest) some

/-- Try the tag alternatives of the fallback regexes (lowercase patterns,
matched case-insensitively), in order. -/
def tagAltPrefix : List (List Char) → List Char → Option (List Char)
  | [], _ => none
  | t :: ts, l =>
    match ciPrefix t l with
    | some after => some after
    | none => tagAltPrefix ts l

/-- Scan for
`/<apex:(?:tags...)\b[^>]*\battr\s*=\s*"\{!([^}]+)\}"[^>]*>/gi`,
collecting the raw captures. -/
def bindingScanGo (tags : List (List Char)) (attr : List Char) : Nat → List Char → List String
  | 0, _ => []
  | _, [] => []
  | fuel + 1, c :: rest =>
    match tagAltPrefix tags (c :: rest) with
    | some after =>
      if isWordOpt after.head? then bindingScanGo tags attr fuel rest
      else
        match bindingInWindow attr 'a' after with
        | some (cap, afterCap) =>
          match afterCap.dropWhile (fun d => d ≠ '>') with
          | _ :: afterGt => cap :: bindingScanGo tags attr fuel afterGt
          | [] => bindingScanGo tags attr fuel rest
        | none => bindingScanGo tags attr fuel rest
    | none => bindingScanGo tags attr fuel rest

/-- The guarded push loop shared by the two fallback binding collectors:
trim, skip empties and values already present. -/
def guardedPushAll (cur : List String) : List String → List String
  | [] => cur
  | b :: rest =>
    let t := jsTrim b
    if t ≠ "" && !(cur.contains t) then guardedPushAll (cur ++ [t]) rest
    else guardedPushAll cur rest

/-- `extractInputBindingsAndButtonActions(vfContent, result)`. -/
def extractInputBindingsAndButtonActions (vfContent : String) (result : VfParsedInfo) :
    VfParsedInfo :=
  let n := vfContent.data.length + 1
  let ib := bindingScanGo
    [("<apex:inputtext".data), ("<apex:inputfield".data), ("<apex:selectlist".data)]
    ("value".data) n vfContent.data
  let ba := bindingScanGo
    [("<apex:commandbutton".data), ("<apex:commandlink".data), ("<apex:button".data)]
    ("action".data) n vfContent.data
  { result with
      inputBindings := jsSetDedup (guardedPushAll result.inputBindings ib),
      buttonActions := jsSetDedup (guardedPushAll result.buttonActions ba) }

/-! ### Fallback ajax extraction (`extractAjaxInteractions`) -/

/-- Scan for `/<apex:actionSupport\b([^>]*)\/?>/gi` and build an
`ActionSupport` from the attribute window of each match. -/
def actionSupportScanGo : Nat → List Char → List ActionSupport
  | 0, _ => []
  | _, [] => []
  | fuel + 1, c :: rest =>
    match ciPrefix ("<apex:actionsupport".data) (c :: rest) with
    | some after =>
      if isWordOpt after.head? then actionSupportScanGo fuel rest
      else
        let attrs : String := ⟨after.takeWhile (fun d => d ≠ '>')⟩
        match after.dropWhile (fun d => d ≠ '>') with
        | _ :: afterGt =>
          { event := extractAttrValue attrs "event",
            reRender := extractAttrValue attrs "rerender",
            action := extractAttrValue attrs "action",
            status := extractAttrValue attrs "status" } :: actionSupportScanGo fuel afterGt
        | [] => actionSupportScanGo fuel rest
    | none => actionSupportScanGo fuel rest

/-- Scan for `/<apex:outputPanel\b([^>]*)>([\s\S]*?)<\/apex:outputPanel>/gi`
and build an `OutputPanel` per match (preview = trimmed body truncated at
100 characters plus `...` when cut, `undefined` when blank). -/
def outputPanelScanGo : Nat → List Char → List OutputPanel
  | 0, _ => []
  | _, [] => []
  | fuel + 1, c :: rest =>
    match ciPrefix ("<apex:outputpanel".data) (c :: rest) with
    | some after =>
      if isWordOpt after.head? then outputPanelScanGo fuel rest
      else
        let attrs : String := ⟨after.takeWhile (fun d => d ≠ '>')⟩
        match after.dropWhile (fun d => d ≠ '>') with
        | _ :: afterGt =>
          match splitAtCi ("</apex:outputpanel>".data) afterGt with
          | some (body, afterClose) =>
            let bt := jsTrimList body
            { id := extractAttrValue attrs "id",
              layout := extractAttrValue attrs "layout",
              contentPreview :=
                if bt ≠ [] then
                  some ((⟨bt.take 100⟩ : String) ++ (if bt.length > 100 then "..." else ""))
                else none } :: outputPanelScanGo fuel afterClose
          | none => outputPanelScanGo fuel rest
        | [] => outputPanelScanGo fuel rest
    | none => outputPanelScanGo fuel rest

/-- `extractAjaxInteractions(vfContent, result)`. -/
def extractAjaxInteractions (vfContent : String) (result : VfParsedInfo) : VfParsedInfo :=
  let n := vfContent.data.length + 1
  { result with
      actionSupports := result.actionSupports ++ actionSupportScanGo n vfContent.data,
      outputPanels := result.outputPanels ++ outputPanelScanGo n vfContent.data }

/-! ### Dependency resolution (`processFieldReferences`) -/

/-- JavaScript-truthy, dot-free controller name, as required by
`result.controllerName && !result.controllerName.includes('.')`. -/
def usableController : Option String → Option String
  | some c => if c ≠ "" && !(strHasChar c '.') then some c else none
  | none => none

/-- Insertion into a JavaScript `Set` modelled as an ordered
duplicate-free list. -/
def setAdd (s : List String) (x : String) : List String :=
  if x ∈ s then s else s ++ [x]

/-- One iteration of the `processFieldReferences` loop over
(sObjects, detailed, updated references). -/
def processRef (ctrl : Option String)
    (acc : List String × List String × List VfFieldReference)
    (ref : VfFieldReference) : List String × List String × List VfFieldReference :=
  let parts := splitOnChar '.' ref.expression
  if parts.length ≥ 2 then
    (setAdd acc.1 (parts.headD ""), setAdd acc.2.1 ref.expression,
     acc.2.2 ++ [{ ref with sObjectName := some (parts.headD ""),
                            fieldName := some (joinWith "." parts.tail) }])
  else
    match ctrl with
    | some c =>
      if parts.length = 1 then
        (acc.1, setAdd acc.2.1 (c ++ "." ++ ref.expression),
         acc.2.2 ++ [{ ref with sObjectName := some c, fieldName := some ref.expression }])
      else (acc.1, acc.2.1, acc.2.2 ++ [ref])
    | none => (acc.1, acc.2.1, acc.2.2 ++ [ref])

/-- `processFieldReferences(result)`: build `sObjectReferences` and
`detailedFieldReferences` from the field references (the undotted
controller name is seeded unconditionally), backfilling each reference. -/
def processFieldReferences (result : VfParsedInfo) : VfParsedInfo :=
  let ctrl := usableController result.controllerName
  let init : List String × List String × List VfFieldReference :=
    ((match ctrl with | some c => [c] | none => []), [], [])
  let acc := result.fieldReferences.foldl (processRef ctrl) init
  { result with fieldReferences := acc.2.2,
                sObjectReferences := acc.1,
                detailedFieldReferences := acc.2.1 }

/-! ### Page attributes (`assignPageAttributesFromXml`) -/

/-- Truthy-guarded attribute read `if (pageTag[key]) … = pageTag[key]`. -/
def truthyLookupStr (fuel : Nat) (pageTag : JVal) (key : String) : Option String :=
  let v := jlookup pageTag key
  if jsTruthyVal v then v.map (jvalToString fuel) else none

/-- `assignPageAttributesFromXml(pageTag, result, vfContent)`: scalar page
attributes are read under the `@_` prefix; the form count and the two
booleans always come from the raw text. -/
def assignPageAttributesFromXml (fuel : Nat) (pageTag : JVal) (result : VfParsedInfo)
    (vfContent : String) : VfParsedInfo :=
  let c := truthyLookupStr fuel pageTag "@_standardController"
  let cc := truthyLookupStr fuel pageTag "@_controller"
  let ex := truthyLookupStr fuel pageTag "@_extensions"
  let av := truthyLookupStr fuel pageTag "@_apiVersion"
  let lb := truthyLookupStr fuel pageTag "@_label"
  { result with
      controllerName := (match c with | some s => some s | none => result.controllerName),
      customControllerName := (match cc with | some s => some s | none => result.customControllerName),
      extensionNames := (match ex with
                         | some s => (splitOnChar ',' s).map jsTrim
                         | none => result.extensionNames),
      apiVersion := (match av with | some s => some s | none => result.apiVersion),
      pageLabel := (match lb with | some s => some s | none => result.pageLabel),
      formCount := countFormTags vfContent,
      hasRemoteObjects := containsSub vfContent "apex:remoteObjectModel"
        || containsSub vfContent "Visualforce.remoting",
      hasStaticResources := containsSub vfContent "$Resource."
        || containsSub vfContent "<apex:stylesheet"
        || containsSub vfContent "<apex:includeScript" }

/-! ### The parse entry points -/

/-- The regex fallback sequence run both when the XML result is unusable
and when the XML library throws (the `catch` block runs on a still-empty
result, since the only throwing statement precedes every mutation). -/
def fallbackExtract (vfContent : String) (result : VfParsedInfo) : VfParsedInfo :=
  extractAjaxInteractions vfContent
    (extractInputBindingsAndButtonActions vfContent
      (extractScriptTags vfContent
        (extractApexExpressions vfContent
          (_extractBasicVfInfo vfContent result))))

/-- Stages 1-3 of the tree path: page attributes, template pre-scan and
script pre-scan, then the traversal. -/
def treePathCollect (fuel : Nat) (pageTag : JVal) (vfContent : String) : VfParsedInfo :=
  let r1 := assignPageAttributesFromXml fuel pageTag createEmptyResult vfContent
  let r2 := { r1 with templateFragments := extractTemplateFragments vfContent }
  let r3 := extractScriptTags vfContent r2
  traverseNode fuel pageTag r3 "apex:page"

/-- Post-traversal normalisation of the tree path: expression sort,
deduplication of the five set fields, then dependency resolution. -/
def treePathFinish (r : VfParsedInfo) : VfParsedInfo :=
  processFieldReferences
    { r with apexExpressions := uniqueAndSortExpressions r.apexExpressions,
             inputBindings := jsSetDedup r.inputBindings,
             buttonActions := jsSetDedup r.buttonActions,
             customComponents := jsSetDedup r.customComponents,
             sObjectReferences := jsSetDedup r.sObjectReferences,
             detailedFieldReferences := jsSetDedup r.detailedFieldReferences }

/-- `VfParser.parse(vfContent)`.  The outcome of the external XML library
is passed explicitly: `none` models a throw (or a nullish return), and a
non-object value or an object without a truthy `apex:page` key routes to
the regex fallback exactly as in the source. -/
def parse (fuel : Nat) (parsedData : Option JVal) (vfContent : String) : VfParsedInfo :=
  match parsedData with
  | some (.obj fields) =>
    (match jlookup (.obj fields) "apex:page" with
     | some pageTag =>
       if jsTruthyVal (some pageTag) then
         treePathFinish (treePathCollect fuel pageTag vfContent)
       else fallbackExtract vfContent createEmptyResult
     | none => fallbackExtract vfContent createEmptyResult)
  | _ => fallbackExtract vfContent createEmptyResult

/-- `VfParser.simplifiedParse(content)`: the reduced regex-only variant
offered for light uses. -/
def simplifiedParse (content : String) : VfParsedInfo :=
  let r := _extractBasicVfInfo content createEmptyResult
  let r := extractApexExpressions content r
  let r := { r with
               formCount := countFormTags content,
               hasRemoteObjects := containsSub content "apex:remoteObjectModel"
                 || containsSub content "Visualforce.remoting",
               hasStaticResources := containsSub content "$Resource."
                 || containsSub content "<apex:stylesheet"
                 || containsSub content "<apex:includeScript",
               templateFragments := extractTemplateFragments content }
  let r := extractScriptTags content r
  let r := extractInputBindingsAndButtonActions content r
  let r := extractAjaxInteractions content r
  processFieldReferences r

/-- The private `simplifiedParse` of the documentation wrapper
(`AiSafeWrapper.ts`): a fresh result refined only by
`_extractBasicVfInfo` and `extractApexExpressions` (its result literal
populates no other collection, matching the empty defaults here). -/
def wrapperSimplifiedParse (content : String) : VfParsedInfo :=
  extractApexExpressions content (_extractBasicVfInfo content createEmptyResult)

/-- `parseVfContentWithOptimization(content)` of `AiSafeWrapper.ts`: the
caller-side size gate in front of `VfParser.parse` (threshold 100000
characters). -/
def parseVfContentWithOptimization (fuel : Nat) (parsedData : Option JVal)
    (content : String) : VfParsedInfo :=
  if strLen content > 100000 then wrapperSimplifiedParse content
  else parse fuel parsedData content

/-! ## Concrete inputs used by the claims -/

/-- The simple-page scenario input of the specification. -/
def simplePageContent : String :=
  "<apex:page standardController=\"Account\"><apex:form><apex:inputField value=\"\x7b!Account.Name\x7d\"/><apex:commandButton action=\"\x7b!save\x7d\"/></apex:form></apex:page>"

/-- Modelled from the spec: the attributed tree that the external
Structural Tree Builder produces for the simple-page scenario input.  The
library itself is outside this repository; following the configuration
described in the spec (attributes preserved under a prefix-stripped
naming scheme, boolean-attribute tolerance, trimmed values), the page
element carries its attribute under its plain name and its child elements
under their namespaced tags. -/
def simplePageTree : JVal :=
  .obj [("apex:page", .obj [
    ("standardController", .str "Account"),
    ("apex:form", .obj [
      ("apex:inputField", .obj [("value", .str "\x7b!Account.Name\x7d")]),
      ("apex:commandButton", .obj [("action", .str "\x7b!save\x7d")])])])]

instance : IsTotal String rankGe :=
  ⟨fun a b => (Nat.le_total (complexityRank b) (complexityRank a)).elim Or.inl Or.inr⟩

instance : IsTrans String rankGe :=
  ⟨fun _ _ _ h1 h2 => Nat.le_trans h2 h1⟩

/-- An oversized input: 100001 characters. -/
def bigOversizeContent : String := ⟨List.replicate 100001 'x'⟩

/-- A page tree containing one `pageBlock`, to witness that the full
traversal runs. -/
def pbTree : JVal := .obj [("apex:page", .obj [("apex:pageBlock", .obj [])])]

/-- A page with one `pageBlock` (title Outer) nesting another (title
Inner) nesting one input component. -/
def nestedBlocksTree : JVal :=
  .obj [("apex:page", .obj [
    ("apex:pageBlock", .obj [
      ("title", .str "Outer"),
      ("apex:pageBlock", .obj [
        ("title", .str "Inner"),
        ("apex:inputText", .obj [("value", .str "\x7b!x\x7d")])])])])]

/-- Three blocks nested inside one another, with ids b1/b2/b3. -/
def tripleBlocksTree : JVal :=
  .obj [("apex:page", .obj [
    ("apex:pageBlock", .obj [
      ("id", .str "b1"),
      ("apex:pageBlock", .obj [
        ("id", .str "b2"),
        ("apex:pageBlock", .obj [("id", .str "b3")])])])])]

/-- A state holding one already-open page block. -/
def oneBlockState : VfParsedInfo :=
  { pageBlocks := [{ title := some "T", id := none, components := [] }] }

/-- Input family for comparing the two strategies: each pair is rendered
as an attribute-free self-closing child tag. -/
def tagsData : List (String × String) → List Char
  | [] => []
  | p :: rest => '<' :: (p.1.data ++ ':' :: (p.2.data ++ '/' :: '>' :: tagsData rest))

/-- The rendered markup of the family: the child tags inside a single
`apex:page` root. -/
def renderPage (pairs : List (String × String)) : String :=
  ⟨"<apex:page>".data ++ (tagsData pairs ++ "</apex:page>".data)⟩

/-- Modelled from the spec: the structural tree the external tree builder
produces for `renderPage pairs` (spec 4.1: child elements become keys of
the parent object; the family's tags are attribute-free and pairwise
distinct under the distinct-key hypothesis of the theorems using it). -/
def pagedToJVal (pairs : List (String × String)) : JVal :=
  .obj [("apex:page", .obj (pairs.map (fun p => (p.1 ++ ":" ++ p.2, JVal.obj []))))]

/-- A concrete page-with-form input processable by both strategies. -/
def pageFormContent : String := "<apex:page><apex:form/></apex:page>"

/-- Modelled from the spec: the structural tree for `pageFormContent`. -/
def pageFormTree : JVal := .obj [("apex:page", .obj [("apex:form", .obj [])])]

-- END OF DEFINITIONS (insert further definitions above this line)

/-! ## Shared record-shape lemmas -/

/-- `extractApexExpressions` in record form: it only extends
`apexExpressions` (the function/boolean/property contents) and
`fieldReferences` (the rest). -/
theorem extractApexExpressions_eq (text : String) (r : VfParsedInfo) (ctx : String) :
    extractApexExpressions text r ctx =
      { r with apexExpressions := r.apexExpressions ++ (exprContents text).filter isApexExprContent,
               fieldReferences := r.fieldReferences ++
                 ((exprContents text).filter (fun e => !(isApexExprContent e))).map
                   (fun e => { expression := e, context := ctx }) } := by
  by_cases h : text = ""
  · subst h; simp [extractApexExpressions, exprContents, exprScanAux]
  · simp [extractApexExpressions, h]

/-- `_extractBasicVfInfo` in record form: it only sets the controller
name, the extension list and the deduplicated component lists. -/
theorem _extractBasicVfInfo_eq (c : String) (r : VfParsedInfo) :
    _extractBasicVfInfo c r =
      { r with
          controllerName := (match findQuotedCi ("standardcontroller".data) c.data with
                             | some v => some v | none => r.controllerName),
          extensionNames := (match findQuotedCi ("extensions".data) c.data with
                             | some v => (splitOnChar ',' v).map jsTrim
                             | none => r.extensionNames),
          components := (basicCompsGo [] r.components r.customComponents (scanComps c.data)).1,
          customComponents := (basicCompsGo [] r.components r.customComponents (scanComps c.data)).2 } := by
  unfold _extractBasicVfInfo
  cases findQuotedCi ("standardcontroller".data) c.data <;>
    cases findQuotedCi ("extensions".data) c.data <;> rfl

/-- The wrapper's reduced parse populates none of the traversal-derived
fields. -/
theorem wrapperSimplifiedParse_reduced (c : String) :
    (wrapperSimplifiedParse c).pageBlocks = [] ∧
    (wrapperSimplifiedParse c).outputPanels = [] ∧
    (wrapperSimplifiedParse c).actionSupports = [] ∧
    (wrapperSimplifiedParse c).inputBindings = [] ∧
    (wrapperSimplifiedParse c).buttonActions = [] ∧
    (wrapperSimplifiedParse c).scripts = [] ∧
    (wrapperSimplifiedParse c).templateFragments = [] ∧
    (wrapperSimplifiedParse c).formCount = 0 ∧
    (wrapperSimplifiedParse c).sObjectReferences = [] ∧
    (wrapperSimplifiedParse c).detailedFieldReferences = [] := by
  simp [wrapperSimplifiedParse, extractApexExpressions_eq, _extractBasicVfInfo_eq, createEmptyResult]

/-- `simplifiedParse` never creates page blocks. -/
theorem simplifiedParse_pageBlocks (c : String) : (simplifiedParse c).pageBlocks = [] := by
  simp [simplifiedParse, extractApexExpressions_eq, _extractBasicVfInfo_eq, extractScriptTags,
        extractInputBindingsAndButtonActions, extractAjaxInteractions, processFieldReferences,
        createEmptyResult]

/-- Traversal of an empty object changes nothing, for every fuel. -/
theorem traverseVal_obj_nil (n : Nat) (stack : List Nat) (ctx : String) (st : VfParsedInfo) :
    traverseVal n stack ctx st (.obj []) = st := by
  cases n <;> rfl

/-- Post-traversal normalisation leaves `pageBlocks` unchanged. -/
theorem treePathFinish_pageBlocks (r : VfParsedInfo) :
    (treePathFinish r).pageBlocks = r.pageBlocks := rfl

/-- The full parse of the one-block page builds its page block whatever
the raw content is (and in particular however large it is). -/
theorem parse_pbTree_pageBlocks (fuel : Nat) (content : String) :
    (parse (fuel + 1) (some pbTree) content).pageBlocks =
      [{ title := none, id := none, components := [] }] := by
  show (treePathFinish (treePathCollect (fuel + 1) (.obj [("apex:pageBlock", .obj [])]) content)).pageBlocks = _
  rw [treePathFinish_pageBlocks]
  show (traverseNode (fuel + 1) (.obj [("apex:pageBlock", .obj [])]) _ "apex:page").pageBlocks = _
  simp [traverseNode, traverseVal, pairsLoop, keyStep, keyStepComponent, parseAttributes,
        parseAttrFields, compNspace, compName, traverseVal_obj_nil, attachToTop, lookupAttr,
        strHasChar, pushComponentUpd, pushCustomUpd, formUpd, actionSupportUpd, outputPanelUpd,
        pushBlockUpd, recurseChildren, jsStartsWith, newContextOf, textNodeUpd,
        treePathCollect, extractScriptTags, assignPageAttributesFromXml, createEmptyResult]

/-! ## Shared traversal-invariant machinery -/

/-- Length of `modifyAt` is unchanged. -/
theorem length_modifyAt {α : Type} (l : List α) (i : Nat) (f : α → α) :
    (modifyAt l i f).length = l.length := by
  induction l generalizing i with
  | nil => rfl
  | cons a l ih => cases i <;> simp [modifyAt, ih]

/-- `modifyAt` leaves other indices unchanged. -/
theorem getElem?_modifyAt_ne {α : Type} (l : List α) (i j : Nat) (f : α → α) (h : i ≠ j) :
    (modifyAt l j f)[i]? = l[i]? := by
  induction l generalizing i j with
  | nil => rfl
  | cons a l ih =>
    cases j with
    | zero =>
      cases i with
      | zero => exact absurd rfl h
      | succ i => simp [modifyAt]
    | succ j =>
      cases i with
      | zero => simp [modifyAt]
      | succ i => simp [modifyAt, ih i j (fun he => h (by rw [he]))]

/-- The expression scanner touches neither blocks nor panels. -/
theorem extractApexExpressions_preserves (t : String) (r : VfParsedInfo) (c : String) :
    (extractApexExpressions t r c).pageBlocks = r.pageBlocks ∧
    (extractApexExpressions t r c).outputPanels = r.outputPanels := by
  rw [extractApexExpressions_eq]; exact ⟨rfl, rfl⟩

/-- The input-binding collector touches neither blocks nor panels. -/
theorem extractInputBindings_preserves (v : String) (r : VfParsedInfo) :
    (extractInputBindings v r).pageBlocks = r.pageBlocks ∧
    (extractInputBindings v r).outputPanels = r.outputPanels := by
  unfold extractInputBindings
  split
  · exact ⟨rfl, rfl⟩
  · split
    · split
      · exact ⟨rfl, rfl⟩
      · exact ⟨rfl, rfl⟩
    · exact ⟨rfl, rfl⟩

/-- The button-action collector touches neither blocks nor panels. -/
theorem extractButtonActions_preserves (v : String) (r : VfParsedInfo) :
    (extractButtonActions v r).pageBlocks = r.pageBlocks ∧
    (extractButtonActions v r).outputPanels = r.outputPanels := by
  unfold extractButtonActions
  split
  · exact ⟨rfl, rfl⟩
  · split
    · split
      · exact ⟨rfl, rfl⟩
      · exact ⟨rfl, rfl⟩
    · exact ⟨rfl, rfl⟩

/-- Attribute handling touches neither blocks nor panels. -/
theorem attrHandle_preserves (ns nm an av : String) (acc : List (String × String) × VfParsedInfo) :
    (attrHandle ns nm an av acc).2.pageBlocks = acc.2.pageBlocks ∧
    (attrHandle ns nm an av acc).2.outputPanels = acc.2.outputPanels := by
  unfold attrHandle
  constructor
  · simp only []
    split_ifs <;>
      simp [extractApexExpressions_preserves, extractInputBindings_preserves,
            extractButtonActions_preserves,
            (extractApexExpressions_preserves _ _ _).1]
  · simp only []
    split_ifs <;>
      simp [extractApexExpressions_preserves, extractInputBindings_preserves,
            extractButtonActions_preserves]

/-- One attribute step touches neither blocks nor panels. -/
theorem attrStep_preserves (fuel : Nat) (ns nm : String)
    (acc : List (String × String) × VfParsedInfo) (k : String) (v : JVal) :
    (attrStep fuel ns nm acc k v).2.pageBlocks = acc.2.pageBlocks ∧
    (attrStep fuel ns nm acc k v).2.outputPanels = acc.2.outputPanels := by
  unfold attrStep
  split
  · exact attrHandle_preserves _ _ _ _ _
  · split
    · split
      · exact attrHandle_preserves _ _ _ _ _
      · exact ⟨rfl, rfl⟩
    · exact ⟨rfl, rfl⟩

/-- The attribute loop over object keys touches neither blocks nor panels. -/
theorem parseAttrFields_preserves (fuel : Nat) (ns nm : String) :
    ∀ (fields : List (String × JVal)) (acc : List (String × String) × VfParsedInfo),
    (parseAttrFields fuel ns nm acc fields).2.pageBlocks = acc.2.pageBlocks ∧
    (parseAttrFields fuel ns nm acc fields).2.outputPanels = acc.2.outputPanels := by
  intro fields
  induction fields with
  | nil => exact fun acc => ⟨rfl, rfl⟩
  | cons kv rest ih =>
    intro acc
    have h1 := attrStep_preserves fuel ns nm acc kv.1 kv.2
    have h2 := ih (attrStep fuel ns nm acc kv.1 kv.2)
    exact ⟨h2.1.trans h1.1, h2.2.trans h1.2⟩

/-- The attribute loop over array indices touches neither blocks nor panels. -/
theorem parseAttrItems_preserves (fuel : Nat) (ns nm : String) :
    ∀ (items : List JVal) (i : Nat) (acc : List (String × String) × VfParsedInfo),
    (parseAttrItems fuel ns nm i acc items).2.pageBlocks = acc.2.pageBlocks ∧
    (parseAttrItems fuel ns nm i acc items).2.outputPanels = acc.2.outputPanels := by
  intro items
  induction items with
  | nil => exact fun i acc => ⟨rfl, rfl⟩
  | cons v rest ih =>
    intro i acc
    have h1 := attrStep_preserves fuel ns nm acc (toString i) v
    have h2 := ih (i + 1) (attrStep fuel ns nm acc (toString i) v)
    exact ⟨h2.1.trans h1.1, h2.2.trans h1.2⟩

/-- `parseAttributes` touches neither blocks nor panels. -/
theorem parseAttributes_preserves (fuel : Nat) (v : JVal) (ns nm : String) (st : VfParsedInfo) :
    (parseAttributes fuel v ns nm st).2.pageBlocks = st.pageBlocks ∧
    (parseAttributes fuel v ns nm st).2.outputPanels = st.outputPanels := by
  cases v with
  | str s => exact ⟨rfl, rfl⟩
  | obj fields => exact parseAttrFields_preserves fuel ns nm fields ([], st)
  | arr items => exact parseAttrItems_preserves fuel ns nm items 0 ([], st)

/-- Effect of the small update helpers on blocks and panels. -/
theorem pushComponentUpd_preserves (comp : VfComponentUsage) (st : VfParsedInfo) :
    (pushComponentUpd comp st).pageBlocks = st.pageBlocks ∧
    (pushComponentUpd comp st).outputPanels = st.outputPanels := ⟨rfl, rfl⟩

/-- `pushCustomUpd` touches neither blocks nor panels. -/
theorem pushCustomUpd_preserves (ns nm : String) (st : VfParsedInfo) :
    (pushCustomUpd ns nm st).pageBlocks = st.pageBlocks ∧
    (pushCustomUpd ns nm st).outputPanels = st.outputPanels := by
  unfold pushCustomUpd; split <;> exact ⟨rfl, rfl⟩

/-- `formUpd` touches neither blocks nor panels. -/
theorem formUpd_preserves (ns nm : String) (st : VfParsedInfo) :
    (formUpd ns nm st).pageBlocks = st.pageBlocks ∧
    (formUpd ns nm st).outputPanels = st.outputPanels := by
  unfold formUpd; split <;> exact ⟨rfl, rfl⟩

/-- `actionSupportUpd` touches neither blocks nor panels. -/
theorem actionSupportUpd_preserves (ns nm : String) (attrs : List (String × String))
    (st : VfParsedInfo) :
    (actionSupportUpd ns nm attrs st).pageBlocks = st.pageBlocks ∧
    (actionSupportUpd ns nm attrs st).outputPanels = st.outputPanels := by
  unfold actionSupportUpd; split
  · exact ⟨rfl, rfl⟩
  · exact ⟨rfl, rfl⟩

/-- `outputPanelUpd` leaves the blocks unchanged. -/
theorem outputPanelUpd_pageBlocks (fuel : Nat) (ns nm : String)
    (attrs : List (String × String)) (v : JVal) (st : VfParsedInfo) :
    (outputPanelUpd fuel ns nm attrs v st).pageBlocks = st.pageBlocks := by
  unfold outputPanelUpd; split <;> rfl

/-- `textNodeUpd` touches neither blocks nor panels. -/
theorem textNodeUpd_preserves (k c : String) (st : VfParsedInfo) (v : JVal) :
    (textNodeUpd k c st v).pageBlocks = st.pageBlocks ∧
    (textNodeUpd k c st v).outputPanels = st.outputPanels := by
  unfold textNodeUpd
  split
  · split
    · split
      · exact extractApexExpressions_preserves _ _ _
      · exact ⟨rfl, rfl⟩
    · exact ⟨rfl, rfl⟩
  · exact ⟨rfl, rfl⟩

/-- The attach step keeps the block count, rewrites only the top block,
and leaves the panels alone. -/
theorem attachToTop_frame (stack : List Nat) (comp : VfComponentUsage) (st : VfParsedInfo) :
    (attachToTop stack comp st).pageBlocks.length = st.pageBlocks.length ∧
    (∀ i, some i ≠ stack.head? →
      (attachToTop stack comp st).pageBlocks[i]? = st.pageBlocks[i]?) ∧
    (attachToTop stack comp st).outputPanels = st.outputPanels := by
  cases stack with
  | nil => exact ⟨rfl, fun i _ => rfl, rfl⟩
  | cons j tl =>
    refine ⟨length_modifyAt _ _ _, fun i hne => ?_, rfl⟩
    exact getElem?_modifyAt_ne _ i j _ (fun he => hne (by simp [he]))

/-- The frame statement, parameterised by fuel: traversal only grows the
block list, and an existing block that is not on top of the stack keeps
its entry. -/
def FrameProp (n : Nat) : Prop :=
  ∀ (v : JVal) (stack : List Nat) (ctx : String) (st : VfParsedInfo),
    st.pageBlocks.length ≤ (traverseVal n stack ctx st v).pageBlocks.length ∧
    (∀ i, i < st.pageBlocks.length → some i ≠ stack.head? →
      (traverseVal n stack ctx st v).pageBlocks[i]? = st.pageBlocks[i]?)

/-- Frame property of `itemsLoop`, given it for the recursive calls. -/
theorem itemsLoop_frame (n : Nat) (ihV : FrameProp n) :
    ∀ (items : List JVal) (stack : List Nat) (ctx : String) (st : VfParsedInfo),
      st.pageBlocks.length ≤ (itemsLoop (traverseVal n) stack ctx st items).pageBlocks.length ∧
      (∀ i, i < st.pageBlocks.length → some i ≠ stack.head? →
        (itemsLoop (traverseVal n) stack ctx st items).pageBlocks[i]? = st.pageBlocks[i]?) := by
  intro items
  induction items with
  | nil => exact fun stack ctx st => ⟨Nat.le_refl _, fun i _ _ => rfl⟩
  | cons v rest ihl =>
    intro stack ctx st
    have h1 := ihV v stack ctx st
    have h2 := ihl stack ctx (traverseVal n stack ctx st v)
    refine ⟨h1.1.trans h2.1, fun i hi hne => ?_⟩
    exact (h2.2 i (Nat.lt_of_lt_of_le hi h1.1) hne).trans (h1.2 i hi hne)

/-- Frame property of `arrKeysLoop`, given it for the recursive calls. -/
theorem arrKeysLoop_frame (n : Nat) (ihV : FrameProp n) :
    ∀ (items : List JVal) (stack : List Nat) (ctx : String) (idx : Nat) (st : VfParsedInfo),
      st.pageBlocks.length ≤ (arrKeysLoop (traverseVal n) stack ctx idx st items).pageBlocks.length ∧
      (∀ i, i < st.pageBlocks.length → some i ≠ stack.head? →
        (arrKeysLoop (traverseVal n) stack ctx idx st items).pageBlocks[i]? = st.pageBlocks[i]?) := by
  intro items
  induction items with
  | nil => exact fun stack ctx idx st => ⟨Nat.le_refl _, fun i _ _ => rfl⟩
  | cons v rest ihl =>
    intro stack ctx idx st
    have h1 := ihV v stack (ctx ++ "." ++ toString idx) st
    have h2 := ihl stack ctx (idx + 1) (traverseVal n stack (ctx ++ "." ++ toString idx) st v)
    refine ⟨h1.1.trans h2.1, fun i hi hne => ?_⟩
    exact (h2.2 i (Nat.lt_of_lt_of_le hi h1.1) hne).trans (h1.2 i hi hne)

/-- Frame property of the generic child recursion. -/
theorem recurseChildren_frame (n : Nat) (ihV : FrameProp n)
    (stack : List Nat) (ctx : String) (st : VfParsedInfo) (v : JVal) :
    st.pageBlocks.length ≤ (recurseChildren (traverseVal n) stack ctx st v).pageBlocks.length ∧
    (∀ i, i < st.pageBlocks.length → some i ≠ stack.head? →
      (recurseChildren (traverseVal n) stack ctx st v).pageBlocks[i]? = st.pageBlocks[i]?) := by
  cases v with
  | str s => exact ⟨Nat.le_refl _, fun i _ _ => rfl⟩
  | arr items => exact itemsLoop_frame n ihV items stack ctx st
  | obj fields => exact ihV (.obj fields) stack ctx st

/-- Frame property of the component branch of the key loop. -/
theorem keyStepComponent_frame (n : Nat) (ihV : FrameProp n)
    (stack : List Nat) (nc : String) (st : VfParsedInfo) (ns nm : String) (v : JVal) :
    st.pageBlocks.length ≤ (keyStepComponent n (traverseVal n) stack nc st ns nm v).pageBlocks.length ∧
    (∀ i, i < st.pageBlocks.length → some i ≠ stack.head? →
      (keyStepComponent n (traverseVal n) stack nc st ns nm v).pageBlocks[i]? = st.pageBlocks[i]?) := by
  unfold keyStepComponent
  have hpa := parseAttributes_preserves n v ns nm st
  have hb1 := pushComponentUpd_preserves
    { name := nm, nspace := ns, attributes := (parseAttributes n v ns nm st).1 }
    (parseAttributes n v ns nm st).2
  have hb2 := pushCustomUpd_preserves ns nm
    (pushComponentUpd { name := nm, nspace := ns, attributes := (parseAttributes n v ns nm st).1 }
      (parseAttributes n v ns nm st).2)
  have hst2 : (pushCustomUpd ns nm (pushComponentUpd
      { name := nm, nspace := ns, attributes := (parseAttributes n v ns nm st).1 }
      (parseAttributes n v ns nm st).2)).pageBlocks = st.pageBlocks :=
    (hb2.1.trans hb1.1).trans hpa.1
  split_ifs with hpb
  · set st2 := pushCustomUpd ns nm (pushComponentUpd
      { name := nm, nspace := ns, attributes := (parseAttributes n v ns nm st).1 }
      (parseAttributes n v ns nm st).2) with hst2def
    have hlen3 : (pushBlockUpd (parseAttributes n v ns nm st).1 st2).pageBlocks =
        st.pageBlocks ++ [{ title := lookupAttr (parseAttributes n v ns nm st).1 "title",
                            id := lookupAttr (parseAttributes n v ns nm st).1 "id",
                            components := [] }] := by
      show st2.pageBlocks ++ _ = _
      rw [hst2]
    have hrec := ihV v (st2.pageBlocks.length :: stack) nc
      (pushBlockUpd (parseAttributes n v ns nm st).1 st2)
    constructor
    · refine Nat.le_trans ?_ hrec.1
      rw [hlen3]
      simp
    · intro i hi hne
      have hlt : i < (pushBlockUpd (parseAttributes n v ns nm st).1 st2).pageBlocks.length := by
        rw [hlen3]
        simp
        omega
      have hne2 : some i ≠ (st2.pageBlocks.length :: stack).head? := by
        simp [hst2]
        omega
      rw [hrec.2 i hlt hne2, hlen3]
      rw [List.getElem?_append_left hi]
  · have hfo := formUpd_preserves ns nm (pushCustomUpd ns nm (pushComponentUpd
      { name := nm, nspace := ns, attributes := (parseAttributes n v ns nm st).1 }
      (parseAttributes n v ns nm st).2))
    set stA := formUpd ns nm (pushCustomUpd ns nm (pushComponentUpd
      { name := nm, nspace := ns, attributes := (parseAttributes n v ns nm st).1 }
      (parseAttributes n v ns nm st).2)) with hstA
    have hac := actionSupportUpd_preserves ns nm (parseAttributes n v ns nm st).1 stA
    set stB := actionSupportUpd ns nm (parseAttributes n v ns nm st).1 stA with hstB
    have hop := outputPanelUpd_pageBlocks n ns nm (parseAttributes n v ns nm st).1 v stB
    set stC := outputPanelUpd n ns nm (parseAttributes n v ns nm st).1 v stB with hstC
    have hCblocks : stC.pageBlocks = st.pageBlocks :=
      hop.trans (hac.1.trans (hfo.1.trans hst2))
    have hat := attachToTop_frame stack
      { name := nm, nspace := ns, attributes := (parseAttributes n v ns nm st).1 } stC
    set stD := attachToTop stack
      { name := nm, nspace := ns, attributes := (parseAttributes n v ns nm st).1 } stC with hstD
    have hDlen : stD.pageBlocks.length = st.pageBlocks.length := by
      rw [hat.1, hCblocks]
    have hrc := recurseChildren_frame n ihV stack nc stD v
    constructor
    · rw [← hDlen]
      exact hrc.1
    · intro i hi hne
      have h1 : (recurseChildren (traverseVal n) stack nc stD v).pageBlocks[i]? =
          stD.pageBlocks[i]? := hrc.2 i (by rw [hDlen]; exact hi) hne
      rw [h1, hat.2.1 i hne, hCblocks]

/-- Frame property of a full key step. -/
theorem keyStep_frame (n : Nat) (ihV : FrameProp n)
    (stack : List Nat) (ctx : String) (st : VfParsedInfo) (k : String) (v : JVal) :
    st.pageBlocks.length ≤ (keyStep n (traverseVal n) stack ctx st k v).pageBlocks.length ∧
    (∀ i, i < st.pageBlocks.length → some i ≠ stack.head? →
      (keyStep n (traverseVal n) stack ctx st k v).pageBlocks[i]? = st.pageBlocks[i]?) := by
  unfold keyStep
  split_ifs with h1 h2
  · exact keyStepComponent_frame n ihV stack _ st _ _ v
  · exact recurseChildren_frame n ihV stack _ st v
  · have htx := textNodeUpd_preserves k ctx st v
    have hrc := recurseChildren_frame n ihV stack (newContextOf ctx k) (textNodeUpd k ctx st v) v
    rw [htx.1] at hrc
    exact hrc

/-- Frame property of the key loop. -/
theorem pairsLoop_frame (n : Nat) (ihV : FrameProp n) :
    ∀ (fields : List (String × JVal)) (stack : List Nat) (ctx : String) (st : VfParsedInfo),
      st.pageBlocks.length ≤ (pairsLoop n (traverseVal n) stack ctx st fields).pageBlocks.length ∧
      (∀ i, i < st.pageBlocks.length → some i ≠ stack.head? →
        (pairsLoop n (traverseVal n) stack ctx st fields).pageBlocks[i]? = st.pageBlocks[i]?) := by
  intro fields
  induction fields with
  | nil => exact fun stack ctx st => ⟨Nat.le_refl _, fun i _ _ => rfl⟩
  | cons kv rest ihl =>
    intro stack ctx st
    have h1 := keyStep_frame n ihV stack ctx st kv.1 kv.2
    have h2 := ihl stack ctx (keyStep n (traverseVal n) stack ctx st kv.1 kv.2)
    refine ⟨h1.1.trans h2.1, fun i hi hne => ?_⟩
    exact (h2.2 i (Nat.lt_of_lt_of_le hi h1.1) hne).trans (h1.2 i hi hne)

/-- Frame property of the traversal, for every fuel: an existing block
that is not on top of the stack never changes, and the block list only
grows. -/
theorem traverseVal_frame : ∀ n : Nat, FrameProp n := by
  intro n
  induction n with
  | zero => exact fun v stack ctx st => ⟨Nat.le_refl _, fun i _ _ => rfl⟩
  | succ n ihV =>
    intro v stack ctx st
    cases v with
    | str s => exact ⟨Nat.le_refl _, fun i _ _ => rfl⟩
    | arr items => exact arrKeysLoop_frame n ihV items stack ctx 0 st
    | obj fields => exact pairsLoop_frame n ihV fields stack ctx st


/-! ## Splitting a quantified component key `ns ++ ":" ++ nm` -/

theorem takeWhile_append_stop {p : Char → Bool} (l1 : List Char) (c : Char) (l2 : List Char)
    (h1 : ∀ x ∈ l1, p x = true) (hc : p c = false) :
    (l1 ++ c :: l2).takeWhile p = l1 := by
  induction l1 with
  | nil => simp [List.takeWhile, hc]
  | cons a l ih =>
    have ha := h1 a (by simp)
    simp only [List.cons_append, List.takeWhile_cons, ha, if_true]
    simp [ih (fun x hx => h1 x (by simp [hx]))]

theorem dropWhile_append_stop {p : Char → Bool} (l1 : List Char) (c : Char) (l2 : List Char)
    (h1 : ∀ x ∈ l1, p x = true) (hc : p c = false) :
    (l1 ++ c :: l2).dropWhile p = c :: l2 := by
  induction l1 with
  | nil => simp [List.dropWhile, hc]
  | cons a l ih =>
    have ha := h1 a (by simp)
    simp only [List.cons_append, List.dropWhile_cons, ha, if_true]
    exact ih (fun x hx => h1 x (by simp [hx]))

theorem takeWhile_all_chars {p : Char → Bool} : ∀ l : List Char,
    (∀ x ∈ l, p x = true) → l.takeWhile p = l := by
  intro l h
  induction l with
  | nil => rfl
  | cons a l ih =>
    have ha := h a (by simp)
    simp only [List.takeWhile_cons, ha, if_true]
    simp [ih (fun x hx => h x (by simp [hx]))]

theorem compKey_data (ns nm : String) : (ns ++ ":" ++ nm).data = ns.data ++ ':' :: nm.data := by
  show (ns.data ++ [':']) ++ nm.data = ns.data ++ ':' :: nm.data
  simp

theorem compNspace_append (ns nm : String) (hns : ':' ∉ ns.data) :
    compNspace (ns ++ ":" ++ nm) = ns := by
  have h : (ns ++ ":" ++ nm).data.takeWhile (fun c => c ≠ ':') = ns.data := by
    rw [compKey_data]
    exact takeWhile_append_stop _ _ _
      (fun x hx => by simp; exact fun he => hns (he ▸ hx)) (by simp)
  show String.mk _ = ns
  rw [h]

theorem compName_append (ns nm : String) (hns : ':' ∉ ns.data) (hnm : ':' ∉ nm.data) :
    compName (ns ++ ":" ++ nm) = nm := by
  have h1 : (ns ++ ":" ++ nm).data.dropWhile (fun c => decide (c ≠ ':')) = ':' :: nm.data := by
    rw [compKey_data]
    refine dropWhile_append_stop ns.data ':' nm.data (fun x hx => ?_) (by simp)
    simp
    exact fun he => hns (he ▸ hx)
  show String.mk _ = nm
  rw [h1]
  simp only [List.drop_one, List.tail_cons]
  rw [takeWhile_all_chars nm.data (fun x hx => by simp; exact fun he => hnm (he ▸ hx))]

theorem compKey_hasColon (ns nm : String) : strHasChar (ns ++ ":" ++ nm) ':' = true := by
  simp [strHasChar, compKey_data]

theorem compKey_ne_text (ns nm : String) : (ns ++ ":" ++ nm) ≠ "#text" := by
  intro he
  have h := compKey_hasColon ns nm
  rw [he] at h
  exact absurd h (by decide)

theorem boolPair_false (ns nm a b : String) (h : ¬(ns = a ∧ nm = b)) :
    (decide (ns = a) && decide (nm = b)) = false := by
  by_cases h1 : ns = a
  · by_cases h2 : nm = b
    · exact absurd ⟨h1, h2⟩ h
    · simp [h2]
  · simp [h1]

/-- Processing one attribute-free, non-`pageBlock` component element
while block `i` is on top of the stack appends its usage both to the
global `components` list and to the components of block `i` exactly. -/
theorem traverse_attaches_to_top
    (fuel : Nat) (ns nm ctx : String) (stack : List Nat) (i : Nat) (st : VfParsedInfo)
    (hns : ':' ∉ ns.data) (hnm : ':' ∉ nm.data)
    (hnse : ns ≠ "") (hnme : nm ≠ "")
    (hnotpb : ¬(ns = "apex" ∧ nm = "pageBlock"))
    (htop : stack.head? = some i) :
    (traverseVal (fuel + 1) stack ctx st (.obj [(ns ++ ":" ++ nm, .obj [])])).components =
      st.components ++ [{ name := nm, nspace := ns, attributes := [] }] ∧
    (traverseVal (fuel + 1) stack ctx st (.obj [(ns ++ ":" ++ nm, .obj [])])).pageBlocks =
      modifyAt st.pageBlocks i
        (fun b => { b with components :=
          b.components ++ [{ name := nm, nspace := ns, attributes := [] }] }) := by
  obtain ⟨j, tl, rfl⟩ : ∃ j tl, stack = j :: tl := by
    cases stack with
    | nil => simp at htop
    | cons j tl => exact ⟨j, tl, rfl⟩
  have hij : j = i := by simpa using htop
  subst hij
  show (pairsLoop fuel (traverseVal fuel) (j :: tl) ctx st [(ns ++ ":" ++ nm, .obj [])]).components = _ ∧
       (pairsLoop fuel (traverseVal fuel) (j :: tl) ctx st [(ns ++ ":" ++ nm, .obj [])]).pageBlocks = _
  have hd : decide ((ns ++ ":" ++ nm) ≠ "#text") = true := by
    simp [compKey_ne_text ns nm]
  simp only [pairsLoop, keyStep, keyStepComponent, compKey_hasColon ns nm,
             compNspace_append ns nm hns, compName_append ns nm hns hnm,
             parseAttributes, parseAttrFields, hd,
             boolPair_false ns nm "apex" "pageBlock" hnotpb,
             recurseChildren, traverseVal_obj_nil,
             pushComponentUpd, pushCustomUpd, formUpd, actionSupportUpd, outputPanelUpd,
             attachToTop, modifyAt, hnse, hnme,
             Bool.and_true, Bool.true_and, if_true, Bool.false_eq_true, if_false]
  split_ifs <;> simp_all [attachToTop, createEmptyResult]



/-! ## Deduplication invariants -/

theorem jsSetDedupAux_nodup {α : Type} [DecidableEq α] :
    ∀ (l seen : List α),
      (jsSetDedupAux seen l).Nodup ∧ ∀ x ∈ jsSetDedupAux seen l, x ∉ seen := by
  intro l
  induction l with
  | nil => exact fun seen => ⟨List.nodup_nil, fun x hx => absurd hx (List.not_mem_nil x)⟩
  | cons a l ih =>
    intro seen
    by_cases ha : a ∈ seen
    · simp only [jsSetDedupAux, ha, if_true]
      exact ih seen
    · simp only [jsSetDedupAux, ha, if_false]
      obtain ⟨hnd, hmem⟩ := ih (a :: seen)
      refine ⟨List.nodup_cons.mpr ⟨fun hx => ?_, hnd⟩, ?_⟩
      · exact (hmem a hx) (List.mem_cons_self a seen)
      · intro x hx
        rcases List.mem_cons.mp hx with h | h
        · subst h; exact ha
        · exact fun hs => (hmem x h) (List.mem_cons_of_mem a hs)

theorem jsSetDedup_nodup {α : Type} [DecidableEq α] (l : List α) : (jsSetDedup l).Nodup :=
  (jsSetDedupAux_nodup l []).1

theorem uniqueAndSortExpressions_nodup (l : List String) :
    (uniqueAndSortExpressions l).Nodup :=
  ((List.perm_insertionSort rankGe (jsSetDedup l)).symm).nodup (jsSetDedup_nodup l)

theorem setAdd_nodup (s : List String) (x : String) (h : s.Nodup) : (setAdd s x).Nodup := by
  unfold setAdd
  split
  · exact h
  · next hx =>
    refine List.Nodup.append h (List.nodup_singleton x) ?_
    intro a ha hb
    rw [List.mem_singleton] at hb
    subst hb
    exact hx ha

theorem processRef_nodup (ctrl : Option String)
    (acc : List String × List String × List VfFieldReference) (ref : VfFieldReference)
    (h1 : acc.1.Nodup) (h2 : acc.2.1.Nodup) :
    (processRef ctrl acc ref).1.Nodup ∧ (processRef ctrl acc ref).2.1.Nodup := by
  simp only [processRef]
  cases ctrl <;> split_ifs <;>
    first
    | exact ⟨setAdd_nodup _ _ h1, setAdd_nodup _ _ h2⟩
    | exact ⟨h1, setAdd_nodup _ _ h2⟩
    | exact ⟨h1, h2⟩

theorem foldl_processRef_nodup (ctrl : Option String) :
    ∀ (refs : List VfFieldReference) (acc : List String × List String × List VfFieldReference),
      acc.1.Nodup → acc.2.1.Nodup →
      (refs.foldl (processRef ctrl) acc).1.Nodup ∧
      (refs.foldl (processRef ctrl) acc).2.1.Nodup := by
  intro refs
  induction refs with
  | nil => exact fun acc h1 h2 => ⟨h1, h2⟩
  | cons r rest ih =>
    intro acc h1 h2
    have h := processRef_nodup ctrl acc r h1 h2
    exact ih (processRef ctrl acc r) h.1 h.2

theorem processFieldReferences_nodup (r : VfParsedInfo) :
    (processFieldReferences r).sObjectReferences.Nodup ∧
    (processFieldReferences r).detailedFieldReferences.Nodup := by
  have h := foldl_processRef_nodup (usableController r.controllerName) r.fieldReferences
    ((match usableController r.controllerName with | some c => [c] | none => []), [], [])
    (by cases usableController r.controllerName <;> simp)
    (by simp)
  exact ⟨h.1, h.2⟩

theorem basicCompsGo_custom_nodup :
    ∀ (pairs : List (String × String)) (seen : List String)
      (comps : List VfComponentUsage) (custom : List String),
      custom.Nodup → (∀ x ∈ custom, ("c" ++ ":" ++ x) ∈ seen) →
      (basicCompsGo seen comps custom pairs).2.Nodup := by
  intro pairs
  induction pairs with
  | nil => exact fun seen comps custom h _ => h
  | cons p rest ih =>
    intro seen comps custom hnd hinv
    obtain ⟨ns, nm⟩ := p
    by_cases hk : (ns ++ ":" ++ nm) ∈ seen
    · simp only [basicCompsGo, hk, if_true]
      exact ih seen comps custom hnd hinv
    · simp only [basicCompsGo, hk, if_false]
      by_cases hns : ns = "c"
      · subst hns
        have hnm : nm ∉ custom := fun hmem => hk (hinv nm hmem)
        refine ih _ _ _ ?_ ?_
        · rw [if_pos rfl]
          refine List.Nodup.append hnd (List.nodup_singleton nm) ?_
          intro a ha hb
          rw [List.mem_singleton] at hb
          subst hb
          exact hnm ha
        · intro x hx
          rw [if_pos rfl] at hx
          rcases List.mem_append.mp hx with h | h
          · exact List.mem_cons_of_mem _ (hinv x h)
          · rw [List.mem_singleton] at h
            subst h
            exact List.mem_cons_self _ _
      · refine ih _ _ _ ?_ ?_
        · simp only [if_neg hns, List.append_nil]
          exact hnd
        · intro x hx
          simp only [if_neg hns, List.append_nil] at hx
          exact List.mem_cons_of_mem _ (hinv x hx)

/-! ## The traversal never touches the pre-scanned fields -/

theorem extractApexExpressions_const (t : String) (r : VfParsedInfo) (c : String) :
    (extractApexExpressions t r c).templateFragments = r.templateFragments ∧
    (extractApexExpressions t r c).scripts = r.scripts := by
  rw [extractApexExpressions_eq]; exact ⟨rfl, rfl⟩

theorem extractInputBindings_const (v : String) (r : VfParsedInfo) :
    (extractInputBindings v r).templateFragments = r.templateFragments ∧
    (extractInputBindings v r).scripts = r.scripts := by
  unfold extractInputBindings
  split
  · exact ⟨rfl, rfl⟩
  · split
    · split
      · exact ⟨rfl, rfl⟩
      · exact ⟨rfl, rfl⟩
    · exact ⟨rfl, rfl⟩

theorem extractButtonActions_const (v : String) (r : VfParsedInfo) :
    (extractButtonActions v r).templateFragments = r.templateFragments ∧
    (extractButtonActions v r).scripts = r.scripts := by
  unfold extractButtonActions
  split
  · exact ⟨rfl, rfl⟩
  · split
    · split
      · exact ⟨rfl, rfl⟩
      · exact ⟨rfl, rfl⟩
    · exact ⟨rfl, rfl⟩

theorem attrHandle_const (ns nm an av : String) (acc : List (String × String) × VfParsedInfo) :
    (attrHandle ns nm an av acc).2.templateFragments = acc.2.templateFragments ∧
    (attrHandle ns nm an av acc).2.scripts = acc.2.scripts := by
  unfold attrHandle
  constructor
  · simp only []
    split_ifs <;>
      simp [extractApexExpressions_const, extractInputBindings_const,
            extractButtonActions_const, (extractApexExpressions_const _ _ _).1]
  · simp only []
    split_ifs <;>
      simp [extractApexExpressions_const, extractInputBindings_const,
            extractButtonActions_const, (extractApexExpressions_const _ _ _).2]

theorem attrStep_const (fuel : Nat) (ns nm : String)
    (acc : List (String × String) × VfParsedInfo) (k : String) (v : JVal) :
    (attrStep fuel ns nm acc k v).2.templateFragments = acc.2.templateFragments ∧
    (attrStep fuel ns nm acc k v).2.scripts = acc.2.scripts := by
  unfold attrStep
  split
  · exact attrHandle_const _ _ _ _ _
  · split
    · split
      · exact attrHandle_const _ _ _ _ _
      · exact ⟨rfl, rfl⟩
    · exact ⟨rfl, rfl⟩

theorem parseAttrFields_const (fuel : Nat) (ns nm : String) :
    ∀ (fields : List (String × JVal)) (acc : List (String × String) × VfParsedInfo),
    (parseAttrFields fuel ns nm acc fields).2.templateFragments = acc.2.templateFragments ∧
    (parseAttrFields fuel ns nm acc fields).2.scripts = acc.2.scripts := by
  intro fields
  induction fields with
  | nil => exact fun acc => ⟨rfl, rfl⟩
  | cons kv rest ih =>
    intro acc
    have h1 := attrStep_const fuel ns nm acc kv.1 kv.2
    have h2 := ih (attrStep fuel ns nm acc kv.1 kv.2)
    exact ⟨h2.1.trans h1.1, h2.2.trans h1.2⟩

theorem parseAttrItems_const (fuel : Nat) (ns nm : String) :
    ∀ (items : List JVal) (i : Nat) (acc : List (String × String) × VfParsedInfo),
    (parseAttrItems fuel ns nm i acc items).2.templateFragments = acc.2.templateFragments ∧
    (parseAttrItems fuel ns nm i acc items).2.scripts = acc.2.scripts := by
  intro items
  induction items with
  | nil => exact fun i acc => ⟨rfl, rfl⟩
  | cons v rest ih =>
    intro i acc
    have h1 := attrStep_const fuel ns nm acc (toString i) v
    have h2 := ih (i + 1) (attrStep fuel ns nm acc (toString i) v)
    exact ⟨h2.1.trans h1.1, h2.2.trans h1.2⟩

theorem parseAttributes_const (fuel : Nat) (v : JVal) (ns nm : String) (st : VfParsedInfo) :
    (parseAttributes fuel v ns nm st).2.templateFragments = st.templateFragments ∧
    (parseAttributes fuel v ns nm st).2.scripts = st.scripts := by
  cases v with
  | str s => exact ⟨rfl, rfl⟩
  | obj fields => exact parseAttrFields_const fuel ns nm fields ([], st)
  | arr items => exact parseAttrItems_const fuel ns nm items 0 ([], st)

theorem smallUpds_const (ns nm : String) (comp : VfComponentUsage)
    (attrs : List (String × String)) (fuel : Nat) (v : JVal) (st : VfParsedInfo) :
    ((pushComponentUpd comp st).templateFragments = st.templateFragments ∧
     (pushComponentUpd comp st).scripts = st.scripts) ∧
    ((pushCustomUpd ns nm st).templateFragments = st.templateFragments ∧
     (pushCustomUpd ns nm st).scripts = st.scripts) ∧
    ((formUpd ns nm st).templateFragments = st.templateFragments ∧
     (formUpd ns nm st).scripts = st.scripts) ∧
    ((actionSupportUpd ns nm attrs st).templateFragments = st.templateFragments ∧
     (actionSupportUpd ns nm attrs st).scripts = st.scripts) ∧
    ((outputPanelUpd fuel ns nm attrs v st).templateFragments = st.templateFragments ∧
     (outputPanelUpd fuel ns nm attrs v st).scripts = st.scripts) ∧
    ((pushBlockUpd attrs st).templateFragments = st.templateFragments ∧
     (pushBlockUpd attrs st).scripts = st.scripts) := by
  refine ⟨⟨rfl, rfl⟩, ?_, ?_, ?_, ?_, ⟨rfl, rfl⟩⟩ <;>
    first
    | (unfold pushCustomUpd; split <;> exact ⟨rfl, rfl⟩)
    | (unfold formUpd; split <;> exact ⟨rfl, rfl⟩)
    | (unfold actionSupportUpd; split
       · exact ⟨rfl, rfl⟩
       · exact ⟨rfl, rfl⟩)
    | (unfold outputPanelUpd; split
       · exact ⟨rfl, rfl⟩
       · exact ⟨rfl, rfl⟩)

theorem textNodeUpd_const (k c : String) (st : VfParsedInfo) (v : JVal) :
    (textNodeUpd k c st v).templateFragments = st.templateFragments ∧
    (textNodeUpd k c st v).scripts = st.scripts := by
  unfold textNodeUpd
  split
  · split
    · split
      · exact extractApexExpressions_const _ _ _
      · exact ⟨rfl, rfl⟩
    · exact ⟨rfl, rfl⟩
  · exact ⟨rfl, rfl⟩

theorem attachToTop_const (stack : List Nat) (comp : VfComponentUsage) (st : VfParsedInfo) :
    (attachToTop stack comp st).templateFragments = st.templateFragments ∧
    (attachToTop stack comp st).scripts = st.scripts := by
  cases stack with
  | nil => exact ⟨rfl, rfl⟩
  | cons j tl => exact ⟨rfl, rfl⟩

def ConstProp (n : Nat) : Prop :=
  ∀ (v : JVal) (stack : List Nat) (ctx : String) (st : VfParsedInfo),
    (traverseVal n stack ctx st v).templateFragments = st.templateFragments ∧
    (traverseVal n stack ctx st v).scripts = st.scripts

theorem itemsLoop_const (n : Nat) (ihV : ConstProp n) :
    ∀ (items : List JVal) (stack : List Nat) (ctx : String) (st : VfParsedInfo),
      (itemsLoop (traverseVal n) stack ctx st items).templateFragments = st.templateFragments ∧
      (itemsLoop (traverseVal n) stack ctx st items).scripts = st.scripts := by
  intro items
  induction items with
  | nil => exact fun stack ctx st => ⟨rfl, rfl⟩
  | cons v rest ihl =>
    intro stack ctx st
    have h1 := ihV v stack ctx st
    have h2 := ihl stack ctx (traverseVal n stack ctx st v)
    exact ⟨h2.1.trans h1.1, h2.2.trans h1.2⟩

theorem arrKeysLoop_const (n : Nat) (ihV : ConstProp n) :
    ∀ (items : List JVal) (stack : List Nat) (ctx : String) (idx : Nat) (st : VfParsedInfo),
      (arrKeysLoop (traverseVal n) stack ctx idx st items).templateFragments =
        st.templateFragments ∧
      (arrKeysLoop (traverseVal n) stack ctx idx st items).scripts = st.scripts := by
  intro items
  induction items with
  | nil => exact fun stack ctx idx st => ⟨rfl, rfl⟩
  | cons v rest ihl =>
    intro stack ctx idx st
    have h1 := ihV v stack (ctx ++ "." ++ toString idx) st
    have h2 := ihl stack ctx (idx + 1) (traverseVal n stack (ctx ++ "." ++ toString idx) st v)
    exact ⟨h2.1.trans h1.1, h2.2.trans h1.2⟩

theorem recurseChildren_const (n : Nat) (ihV : ConstProp n)
    (stack : List Nat) (ctx : String) (st : VfParsedInfo) (v : JVal) :
    (recurseChildren (traverseVal n) stack ctx st v).templateFragments = st.templateFragments ∧
    (recurseChildren (traverseVal n) stack ctx st v).scripts = st.scripts := by
  cases v with
  | str s => exact ⟨rfl, rfl⟩
  | arr items => exact itemsLoop_const n ihV items stack ctx st
  | obj fields => exact ihV (.obj fields) stack ctx st

theorem keyStepComponent_const (n : Nat) (ihV : ConstProp n)
    (stack : List Nat) (nc : String) (st : VfParsedInfo) (ns nm : String) (v : JVal) :
    (keyStepComponent n (traverseVal n) stack nc st ns nm v).templateFragments =
      st.templateFragments ∧
    (keyStepComponent n (traverseVal n) stack nc st ns nm v).scripts = st.scripts := by
  unfold keyStepComponent
  have hpa := parseAttributes_const n v ns nm st
  have hsm := smallUpds_const ns nm
    { name := nm, nspace := ns, attributes := (parseAttributes n v ns nm st).1 }
    (parseAttributes n v ns nm st).1 n v
  have hst2tf : (pushCustomUpd ns nm (pushComponentUpd
      { name := nm, nspace := ns, attributes := (parseAttributes n v ns nm st).1 }
      (parseAttributes n v ns nm st).2)).templateFragments = st.templateFragments :=
    ((hsm _).2.1.1.trans (hsm _).1.1).trans hpa.1
  have hst2sc : (pushCustomUpd ns nm (pushComponentUpd
      { name := nm, nspace := ns, attributes := (parseAttributes n v ns nm st).1 }
      (parseAttributes n v ns nm st).2)).scripts = st.scripts :=
    ((hsm _).2.1.2.trans (hsm _).1.2).trans hpa.2
  split_ifs with hpb
  · set st2 := pushCustomUpd ns nm (pushComponentUpd
      { name := nm, nspace := ns, attributes := (parseAttributes n v ns nm st).1 }
      (parseAttributes n v ns nm st).2)
    have hrec := ihV v (st2.pageBlocks.length :: stack) nc
      (pushBlockUpd (parseAttributes n v ns nm st).1 st2)
    exact ⟨(hrec.1.trans ((hsm st2).2.2.2.2.2.1)).trans hst2tf,
           (hrec.2.trans ((hsm st2).2.2.2.2.2.2)).trans hst2sc⟩
  · set stA := formUpd ns nm (pushCustomUpd ns nm (pushComponentUpd
      { name := nm, nspace := ns, attributes := (parseAttributes n v ns nm st).1 }
      (parseAttributes n v ns nm st).2))
    set stB := actionSupportUpd ns nm (parseAttributes n v ns nm st).1 stA
    set stC := outputPanelUpd n ns nm (parseAttributes n v ns nm st).1 v stB
    set stD := attachToTop stack
      { name := nm, nspace := ns, attributes := (parseAttributes n v ns nm st).1 } stC
    have hat := attachToTop_const stack
      { name := nm, nspace := ns, attributes := (parseAttributes n v ns nm st).1 } stC
    have hrc := recurseChildren_const n ihV stack nc stD v
    refine ⟨hrc.1.trans ?_, hrc.2.trans ?_⟩
    · exact ((hat.1.trans ((hsm stB).2.2.2.2.1.1)).trans
        ((hsm stA).2.2.2.1.1)).trans (((hsm _).2.2.1.1).trans hst2tf)
    · exact ((hat.2.trans ((hsm stB).2.2.2.2.1.2)).trans
        ((hsm stA).2.2.2.1.2)).trans (((hsm _).2.2.1.2).trans hst2sc)

theorem keyStep_const (n : Nat) (ihV : ConstProp n)
    (stack : List Nat) (ctx : String) (st : VfParsedInfo) (k : String) (v : JVal) :
    (keyStep n (traverseVal n) stack ctx st k v).templateFragments = st.templateFragments ∧
    (keyStep n (traverseVal n) stack ctx st k v).scripts = st.scripts := by
  unfold keyStep
  split_ifs with h1 h2
  · exact keyStepComponent_const n ihV stack _ st _ _ v
  · exact recurseChildren_const n ihV stack _ st v
  · have htx := textNodeUpd_const k ctx st v
    have hrc := recurseChildren_const n ihV stack (newContextOf ctx k) (textNodeUpd k ctx st v) v
    exact ⟨hrc.1.trans htx.1, hrc.2.trans htx.2⟩

theorem pairsLoop_const (n : Nat) (ihV : ConstProp n) :
    ∀ (fields : List (String × JVal)) (stack : List Nat) (ctx : String) (st : VfParsedInfo),
      (pairsLoop n (traverseVal n) stack ctx st fields).templateFragments =
        st.templateFragments ∧
      (pairsLoop n (traverseVal n) stack ctx st fields).scripts = st.scripts := by
  intro fields
  induction fields with
  | nil => exact fun stack ctx st => ⟨rfl, rfl⟩
  | cons kv rest ihl =>
    intro stack ctx st
    have h1 := keyStep_const n ihV stack ctx st kv.1 kv.2
    have h2 := ihl stack ctx (keyStep n (traverseVal n) stack ctx st kv.1 kv.2)
    exact ⟨h2.1.trans h1.1, h2.2.trans h1.2⟩

theorem traverseVal_const : ∀ n : Nat, ConstProp n := by
  intro n
  induction n with
  | zero => exact fun v stack ctx st => ⟨rfl, rfl⟩
  | succ n ihV =>
    intro v stack ctx st
    cases v with
    | str s => exact ⟨rfl, rfl⟩
    | arr items => exact arrKeysLoop_const n ihV items stack ctx 0 st
    | obj fields => exact pairsLoop_const n ihV fields stack ctx st



/-! ## Content-preview length bounds -/

theorem strLen_append (a b : String) : strLen (a ++ b) = strLen a + strLen b := by
  show (a.data ++ b.data).length = a.data.length + b.data.length
  exact List.length_append _ _

theorem strTake_le (s : String) (n : Nat) : strLen (strTake s n) ≤ n := by
  show (s.data.take n).length ≤ n
  rw [List.length_take]
  exact min_le_left _ _

theorem previewTextVal_bound (t : String) :
    strLen (if strLen t > 100 then strTake t 100 ++ "..." else t) ≤ 123 := by
  split_ifs with hl
  · rw [strLen_append]
    have h1 := strTake_le t 100
    have h2 : strLen "..." = 3 := by decide
    omega
  · omega

theorem previewSummary_bound (u : String) :
    strLen (if strLen (strTake u 120) = 120 then strTake u 120 ++ "..." else strTake u 120) ≤
      123 := by
  split_ifs with hl
  · rw [strLen_append]
    have h2 : strLen "..." = 3 := by decide
    omega
  · have h1 := strTake_le u 120
    omega

theorem extractContentPreview_bound (fuel : Nat) (v : JVal) (s : String)
    (h : extractContentPreview fuel v = some s) : strLen s ≤ 123 := by
  cases v with
  | str t => simp [extractContentPreview] at h
  | obj fields =>
    simp only [extractContentPreview] at h
    split at h
    · injection h with h
      subst h
      exact previewTextVal_bound _
    · injection h with h
      subst h
      exact previewSummary_bound _
  | arr items =>
    simp only [extractContentPreview] at h
    injection h with h
    subst h
    exact previewSummary_bound _

theorem panelEntry_preview_bound (bt : List Char) (s : String)
    (hs : (if bt ≠ [] then
            some ((⟨bt.take 100⟩ : String) ++ (if bt.length > 100 then "..." else ""))
          else none) = some s) : strLen s ≤ 103 := by
  split at hs
  · injection hs with hs
    subst hs
    rw [strLen_append]
    have h1 : strLen (⟨bt.take 100⟩ : String) ≤ 100 := by
      show (bt.take 100).length ≤ 100
      rw [List.length_take]
      exact min_le_left _ _
    have h2 : strLen (if bt.length > 100 then "..." else "") ≤ 3 := by
      split_ifs
      · decide
      · decide
    omega
  · exact absurd hs (by simp)

theorem outputPanelScanGo_bound : ∀ (fuel : Nat) (l : List Char) (p : OutputPanel),
    p ∈ outputPanelScanGo fuel l → ∀ s, p.contentPreview = some s → strLen s ≤ 103 := by
  intro fuel
  induction fuel with
  | zero =>
    intro l p hp
    simp [outputPanelScanGo] at hp
  | succ fuel ih =>
    intro l p hp
    cases l with
    | nil => simp [outputPanelScanGo] at hp
    | cons c rest =>
      simp only [outputPanelScanGo] at hp
      split at hp
      · split at hp
        · exact ih rest p hp
        · split at hp
          · split at hp
            · rcases List.mem_cons.mp hp with he | hm
              · subst he
                intro s hs
                exact panelEntry_preview_bound _ s hs
              · exact ih _ p hm
            · exact ih rest p hp
          · exact ih rest p hp
      · exact ih rest p hp

/-- The bounded-preview invariant on the collected panels. -/
def PanelsBound (st : VfParsedInfo) : Prop :=
  ∀ p ∈ st.outputPanels, ∀ s, p.contentPreview = some s → strLen s ≤ 123

theorem PanelsBound_of_eq {a b : VfParsedInfo} (he : a.outputPanels = b.outputPanels)
    (h : PanelsBound b) : PanelsBound a :=
  fun p hp => h p (he ▸ hp)

theorem outputPanelUpd_bound (fuel : Nat) (ns nm : String) (attrs : List (String × String))
    (v : JVal) (st : VfParsedInfo) (h : PanelsBound st) :
    PanelsBound (outputPanelUpd fuel ns nm attrs v st) := by
  unfold outputPanelUpd
  split
  · intro p hp s hs
    rcases List.mem_append.mp hp with hm | hm
    · exact h p hm s hs
    · rw [List.mem_singleton] at hm
      subst hm
      exact extractContentPreview_bound fuel v s hs
  · exact h

def PanelProp (n : Nat) : Prop :=
  ∀ (v : JVal) (stack : List Nat) (ctx : String) (st : VfParsedInfo),
    PanelsBound st → PanelsBound (traverseVal n stack ctx st v)

theorem itemsLoop_panels (n : Nat) (ihV : PanelProp n) :
    ∀ (items : List JVal) (stack : List Nat) (ctx : String) (st : VfParsedInfo),
      PanelsBound st → PanelsBound (itemsLoop (traverseVal n) stack ctx st items) := by
  intro items
  induction items with
  | nil => exact fun stack ctx st h => h
  | cons v rest ihl =>
    intro stack ctx st h
    exact ihl stack ctx (traverseVal n stack ctx st v) (ihV v stack ctx st h)

theorem arrKeysLoop_panels (n : Nat) (ihV : PanelProp n) :
    ∀ (items : List JVal) (stack : List Nat) (ctx : String) (idx : Nat) (st : VfParsedInfo),
      PanelsBound st → PanelsBound (arrKeysLoop (traverseVal n) stack ctx idx st items) := by
  intro items
  induction items with
  | nil => exact fun stack ctx idx st h => h
  | cons v rest ihl =>
    intro stack ctx idx st h
    exact ihl stack ctx (idx + 1) (traverseVal n stack (ctx ++ "." ++ toString idx) st v)
      (ihV v stack (ctx ++ "." ++ toString idx) st h)

theorem recurseChildren_panels (n : Nat) (ihV : PanelProp n)
    (stack : List Nat) (ctx : String) (st : VfParsedInfo) (v : JVal)
    (h : PanelsBound st) :
    PanelsBound (recurseChildren (traverseVal n) stack ctx st v) := by
  cases v with
  | str s => exact h
  | arr items => exact itemsLoop_panels n ihV items stack ctx st h
  | obj fields => exact ihV (.obj fields) stack ctx st h

theorem keyStepComponent_panels (n : Nat) (ihV : PanelProp n)
    (stack : List Nat) (nc : String) (st : VfParsedInfo) (ns nm : String) (v : JVal)
    (h : PanelsBound st) :
    PanelsBound (keyStepComponent n (traverseVal n) stack nc st ns nm v) := by
  unfold keyStepComponent
  have hpa := parseAttributes_preserves n v ns nm st
  have hb1 := pushComponentUpd_preserves
    { name := nm, nspace := ns, attributes := (parseAttributes n v ns nm st).1 }
    (parseAttributes n v ns nm st).2
  have hb2 := pushCustomUpd_preserves ns nm
    (pushComponentUpd { name := nm, nspace := ns, attributes := (parseAttributes n v ns nm st).1 }
      (parseAttributes n v ns nm st).2)
  have hst2 : PanelsBound (pushCustomUpd ns nm (pushComponentUpd
      { name := nm, nspace := ns, attributes := (parseAttributes n v ns nm st).1 }
      (parseAttributes n v ns nm st).2)) :=
    PanelsBound_of_eq (hb2.2.trans (hb1.2.trans hpa.2)) h
  split_ifs with hpb
  · exact ihV v _ nc _ (PanelsBound_of_eq rfl hst2)
  · set stA := formUpd ns nm (pushCustomUpd ns nm (pushComponentUpd
      { name := nm, nspace := ns, attributes := (parseAttributes n v ns nm st).1 }
      (parseAttributes n v ns nm st).2))
    have hA : PanelsBound stA :=
      PanelsBound_of_eq (formUpd_preserves ns nm _).2 hst2
    set stB := actionSupportUpd ns nm (parseAttributes n v ns nm st).1 stA
    have hB : PanelsBound stB :=
      PanelsBound_of_eq (actionSupportUpd_preserves ns nm _ stA).2 hA
    set stC := outputPanelUpd n ns nm (parseAttributes n v ns nm st).1 v stB
    have hC : PanelsBound stC := outputPanelUpd_bound n ns nm _ v stB hB
    set stD := attachToTop stack
      { name := nm, nspace := ns, attributes := (parseAttributes n v ns nm st).1 } stC
    have hD : PanelsBound stD :=
      PanelsBound_of_eq (attachToTop_frame stack _ stC).2.2 hC
    exact recurseChildren_panels n ihV stack nc stD v hD

theorem keyStep_panels (n : Nat) (ihV : PanelProp n)
    (stack : List Nat) (ctx : String) (st : VfParsedInfo) (k : String) (v : JVal)
    (h : PanelsBound st) :
    PanelsBound (keyStep n (traverseVal n) stack ctx st k v) := by
  unfold keyStep
  split_ifs with h1 h2
  · exact keyStepComponent_panels n ihV stack _ st _ _ v h
  · exact recurseChildren_panels n ihV stack _ st v h
  · exact recurseChildren_panels n ihV stack (newContextOf ctx k) (textNodeUpd k ctx st v) v
      (PanelsBound_of_eq (textNodeUpd_preserves k ctx st v).2 h)

theorem pairsLoop_panels (n : Nat) (ihV : PanelProp n) :
    ∀ (fields : List (String × JVal)) (stack : List Nat) (ctx : String) (st : VfParsedInfo),
      PanelsBound st → PanelsBound (pairsLoop n (traverseVal n) stack ctx st fields) := by
  intro fields
  induction fields with
  | nil => exact fun stack ctx st h => h
  | cons kv rest ihl =>
    intro stack ctx st h
    exact ihl stack ctx (keyStep n (traverseVal n) stack ctx st kv.1 kv.2)
      (keyStep_panels n ihV stack ctx st kv.1 kv.2 h)

theorem traverseVal_panels : ∀ n : Nat, PanelProp n := by
  intro n
  induction n with
  | zero => exact fun v stack ctx st h => h
  | succ n ihV =>
    intro v stack ctx st h
    cases v with
    | str s => exact h
    | arr items => exact arrKeysLoop_panels n ihV items stack ctx 0 st h
    | obj fields => exact pairsLoop_panels n ihV fields stack ctx st h

theorem fallbackExtract_panels (c : String) (r : VfParsedInfo) :
    (fallbackExtract c r).outputPanels =
      r.outputPanels ++ outputPanelScanGo (c.data.length + 1) c.data := by
  simp [fallbackExtract, extractAjaxInteractions, extractInputBindingsAndButtonActions,
        extractScriptTags, extractApexExpressions_eq, _extractBasicVfInfo_eq]


/-! ## Claim C1 -/

set_option maxRecDepth 10000 in
/-- Claim C1 (code bug): for the simple-page scenario input the spec
expects `controllerName = "Account"`, `formCount = 1`, `inputBindings =
["Account.Name"]`, `buttonActions = ["save"]` and `sObjectReferences`
containing `"Account"`.  Evaluating the embedded parse on the scenario
tree shows the code instead returns `formCount = 2` — the form is counted
once from the raw text by `assignPageAttributesFromXml` and once more by
the traversal — and loses the controller (hence the object references):
`assignPageAttributesFromXml` reads `@_`-prefixed page-attribute keys
that the prefix-stripped attribute naming of the configured tree builder
never produces.  The binding and action fields agree with the claim. -/
theorem c1_simplePage_scenario_divergence :
    (parse 99 (some simplePageTree) simplePageContent).formCount = 2 ∧
    (parse 99 (some simplePageTree) simplePageContent).controllerName = none ∧
    (parse 99 (some simplePageTree) simplePageContent).inputBindings = ["Account.Name"] ∧
    (parse 99 (some simplePageTree) simplePageContent).buttonActions = ["save"] ∧
    (parse 99 (some simplePageTree) simplePageContent).sObjectReferences = [] := by
  decide

/-! ## Claim C2 -/

/-- Claim C2: `parse` always returns a (structurally valid) result and
never raises: in this embedding `parse` is a total function into
`VfParsedInfo`, whose collection fields are total lists, so the claim
reduces to the recovery routing: whenever the external XML stage yields
nothing usable — it threw (`parsedData = none`), returned a non-object,
or returned an object without a truthy `apex:page` — `parse` returns
exactly the regex-fallback extraction of the raw text, itself a total
function. -/
theorem c2_parse_recovers_by_fallback (fuel : Nat) (d : Option JVal) (content : String)
    (h : ∀ v, d = some v → jsTruthyVal (jlookup v "apex:page") = false) :
    parse fuel d content = fallbackExtract content createEmptyResult := by
  cases d with
  | none => rfl
  | some v =>
    have hv := h v rfl
    cases v with
    | str s => rfl
    | arr items => rfl
    | obj fields =>
      cases hj : jlookup (.obj fields) "apex:page" with
      | none => simp [parse, hj]
      | some pageTag =>
        rw [hj] at hv
        simp [parse, hj, hv]

/-- Witness for C2 at a malformed input (the tree stage threw). -/
theorem c2_parse_recovers_by_fallback_witness :
    parse 3 none "<apex:page><unclosed" =
      fallbackExtract "<apex:page><unclosed" createEmptyResult :=
  c2_parse_recovers_by_fallback 3 none "<apex:page><unclosed" (fun _ h => nomatch h)

/-! ## Claim C6 -/

/-- Claim C6 (counterexample): the expression content `a == b` — the
claim's own example, with spaces around `==` — contains the symbol token
`==` and is not a function call, yet the classifier emits it as a
`FieldReference` and does not append it to `apexExpressions`: the
boolean regex wraps its word-boundary assertions around every
alternative, and a space next to `=` is not a word boundary. -/
theorem c6_counterexample_spaced_equality :
    (extractApexExpressions "\x7b!a == b\x7d" createEmptyResult "ctx").apexExpressions = [] ∧
    (extractApexExpressions "\x7b!a == b\x7d" createEmptyResult "ctx").fieldReferences =
      [{ expression := "a == b", context := "ctx" }] := by
  decide

/-- Claim C6 as amended: an embedded expression whose content matches the
boolean regex — the word tokens `AND`/`OR`/`NOT` at word boundaries
(case-insensitively) or the symbol tokens `&&`, `||`, `==`, `!=`, `>`,
`<` when the surrounding word-boundary assertions hold, i.e. flanked by
word characters as in `a==b` — is appended to `apexExpressions` and never
emitted as a `FieldReference` (whether or not it is also function-like). -/
theorem c6_boolean_match_goes_to_apexExpressions
    (text : String) (st : VfParsedInfo) (ctx : String)
    (h : ∀ e ∈ exprContents text, testBoolean e.data = true) :
    (extractApexExpressions text st ctx).fieldReferences = st.fieldReferences ∧
    (extractApexExpressions text st ctx).apexExpressions =
      st.apexExpressions ++ exprContents text := by
  have hall : ∀ e ∈ exprContents text, isApexExprContent e = true := by
    intro e he
    simp [isApexExprContent, h e he]
  by_cases ht : text = ""
  · subst ht
    refine ⟨rfl, ?_⟩
    show st.apexExpressions = st.apexExpressions ++ exprContents ""
    simp [exprContents, exprScanAux]
  · constructor
    · simp only [extractApexExpressions, ht, if_false]
      have : (exprContents text).filter (fun e => !(isApexExprContent e)) = [] := by
        rw [List.filter_eq_nil_iff]
        intro e he
        simp [hall e he]
      simp [this]
    · simp only [extractApexExpressions, ht, if_false]
      have : (exprContents text).filter isApexExprContent = exprContents text :=
        List.filter_eq_self.mpr hall
      simp [this]

/-- Witness for the amended C6 at the concrete boolean expression
`a==b`. -/
theorem c6_boolean_match_witness :
    (extractApexExpressions "\x7b!a==b\x7d" createEmptyResult "c").fieldReferences =
      createEmptyResult.fieldReferences ∧
    (extractApexExpressions "\x7b!a==b\x7d" createEmptyResult "c").apexExpressions =
      createEmptyResult.apexExpressions ++ exprContents "\x7b!a==b\x7d" :=
  c6_boolean_match_goes_to_apexExpressions "\x7b!a==b\x7d" createEmptyResult "c" (by decide)

/-! ## Claim C7 -/

/-- Rank filtering commutes with ordered insertion: the insertion point
of `a` lies before every element of equal rank (skipped elements have
strictly larger rank). -/
theorem filter_orderedInsert_rank (k : Nat) (a : String) (m : List String) :
    (m.orderedInsert rankGe a).filter (fun e => complexityRank e = k) =
      if complexityRank a = k then
        a :: m.filter (fun e => complexityRank e = k)
      else m.filter (fun e => complexityRank e = k) := by
  induction m with
  | nil =>
    by_cases hk : complexityRank a = k <;> simp [List.orderedInsert, List.filter, hk]
  | cons b m ih =>
    by_cases hr : rankGe a b
    · by_cases hk : complexityRank a = k <;>
        simp [List.orderedInsert, hr, List.filter_cons, hk]
    · have hb : ¬ complexityRank b = k ∨ ¬ complexityRank a = k := by
        by_cases hak : complexityRank a = k
        · left
          intro hbk
          exact hr (by simp [rankGe, hak, hbk])
        · right; exact hak
      by_cases hak : complexityRank a = k
      · have hbk : ¬ complexityRank b = k := hb.resolve_right (fun hc => hc hak)
        simp [List.orderedInsert, hr, List.filter_cons, hbk, ih, hak]
      · by_cases hbk : complexityRank b = k <;>
          simp [List.orderedInsert, hr, List.filter_cons, hbk, ih, hak]

/-- Rank filtering is invariant under the insertion sort (stability per
rank class). -/
theorem filter_insertionSort_rank (k : Nat) (l : List String) :
    (l.insertionSort rankGe).filter (fun e => complexityRank e = k) =
      l.filter (fun e => complexityRank e = k) := by
  induction l with
  | nil => rfl
  | cons a l ih =>
    show ((l.insertionSort rankGe).orderedInsert rankGe a).filter _ = _
    rw [filter_orderedInsert_rank]
    by_cases hk : complexityRank a = k <;> simp [hk, ih, List.filter_cons]

/-- The `apexExpressions` field survives dependency resolution
unchanged. -/
theorem processFieldReferences_apexExpressions (r : VfParsedInfo) :
    (processFieldReferences r).apexExpressions = r.apexExpressions := rfl

/-- Claim C7: after a successful parse the `apexExpressions` list is the
deduplicated traversal output, stably sorted by descending complexity
rank: the tree path finishes by applying `uniqueAndSortExpressions` (and
dependency resolution, which leaves the field unchanged), whose output is
a permutation of the first-occurrence dedup, is pairwise ordered by
non-increasing rank, and preserves inside every rank class the exact
order the dedup produced. -/
theorem c7_apexExpressions_sorted_by_complexity :
    (∀ r : VfParsedInfo,
      (treePathFinish r).apexExpressions = uniqueAndSortExpressions r.apexExpressions) ∧
    (∀ arr : List String,
      (uniqueAndSortExpressions arr).Perm (jsSetDedup arr) ∧
      List.Pairwise rankGe (uniqueAndSortExpressions arr) ∧
      (∀ k, (uniqueAndSortExpressions arr).filter (fun e => complexityRank e = k) =
            (jsSetDedup arr).filter (fun e => complexityRank e = k))) := by
  constructor
  · intro r
    rfl
  · intro arr
    refine ⟨List.perm_insertionSort rankGe (jsSetDedup arr), ?_, ?_⟩
    · exact List.sorted_insertionSort rankGe (jsSetDedup arr)
    · intro k
      exact filter_insertionSort_rank k (jsSetDedup arr)

/-! ## Claim C8 -/

/-- Claim C8 (counterexample): an input of 100001 characters exceeds the
threshold, yet `parse` given such input still performs the full
structural traversal — it builds the page block of the tree — whereas
both reduced extraction variants build none; so `parse` does not route
oversized input to the lightweight path (no size check exists in
`parse`; the gate lives in the caller, see the amended theorem). -/
theorem c8_counterexample_parse_ignores_threshold :
    strLen bigOversizeContent > 100000 ∧
    (parse 9 (some pbTree) bigOversizeContent).pageBlocks.length = 1 ∧
    (simplifiedParse bigOversizeContent).pageBlocks.length = 0 ∧
    (wrapperSimplifiedParse bigOversizeContent).pageBlocks.length = 0 := by
  refine ⟨?_, ?_, ?_, ?_⟩
  · show (List.replicate 100001 'x').length > 100000
    simp only [List.length_replicate]
    decide
  · simp [show (9 : Nat) = 8 + 1 from rfl, parse_pbTree_pageBlocks]
  · simp [simplifiedParse_pageBlocks]
  · simp [(wrapperSimplifiedParse_reduced bigOversizeContent).1]

/-- Claim C8 as amended: the size threshold is enforced by the calling
wrapper, not by `parse`: `parseVfContentWithOptimization` routes every
input longer than 100000 characters to its own reduced parse — which
extracts only controller/extensions/components/expressions and leaves all
traversal-derived fields empty — without invoking `parse`. -/
theorem c8_caller_gate_routes_oversized (fuel : Nat) (d : Option JVal) (content : String)
    (h : strLen content > 100000) :
    parseVfContentWithOptimization fuel d content = wrapperSimplifiedParse content ∧
    (wrapperSimplifiedParse content).pageBlocks = [] ∧
    (wrapperSimplifiedParse content).outputPanels = [] ∧
    (wrapperSimplifiedParse content).actionSupports = [] ∧
    (wrapperSimplifiedParse content).inputBindings = [] ∧
    (wrapperSimplifiedParse content).buttonActions = [] ∧
    (wrapperSimplifiedParse content).scripts = [] ∧
    (wrapperSimplifiedParse content).templateFragments = [] ∧
    (wrapperSimplifiedParse content).formCount = 0 := by
  obtain ⟨h1, h2, h3, h4, h5, h6, h7, h8, _, _⟩ := wrapperSimplifiedParse_reduced content
  exact ⟨by simp [parseVfContentWithOptimization, h], h1, h2, h3, h4, h5, h6, h7, h8⟩

/-- Witness for the amended C8 at the concrete oversized input. -/
theorem c8_caller_gate_witness :
    parseVfContentWithOptimization 3 none bigOversizeContent =
      wrapperSimplifiedParse bigOversizeContent ∧
    (wrapperSimplifiedParse bigOversizeContent).pageBlocks = [] ∧
    (wrapperSimplifiedParse bigOversizeContent).outputPanels = [] ∧
    (wrapperSimplifiedParse bigOversizeContent).actionSupports = [] ∧
    (wrapperSimplifiedParse bigOversizeContent).inputBindings = [] ∧
    (wrapperSimplifiedParse bigOversizeContent).buttonActions = [] ∧
    (wrapperSimplifiedParse bigOversizeContent).scripts = [] ∧
    (wrapperSimplifiedParse bigOversizeContent).templateFragments = [] ∧
    (wrapperSimplifiedParse bigOversizeContent).formCount = 0 :=
  c8_caller_gate_routes_oversized 3 none bigOversizeContent
    (by show (List.replicate 100001 'x').length > 100000; simp only [List.length_replicate]; decide)

/-! ## Claim C4 -/

set_option maxRecDepth 10000 in
/-- Claim C4 (counterexample): for a page with three nested `pageBlock`s
the claim requires each inner block — itself a component element
encountered while its enclosing block is active — to appear in the
enclosing block's `components`; instead every `components` list is empty,
although all three block usages were encountered (they are in the global
`components` list): the `pageBlock` branch of the traversal skips the
attach step entirely. -/
theorem c4_counterexample_nested_block_in_no_components :
    (parse 9 (some tripleBlocksTree) "").pageBlocks =
      [{ title := none, id := some "b1", components := [] },
       { title := none, id := some "b2", components := [] },
       { title := none, id := some "b3", components := [] }] ∧
    ({ name := "pageBlock", nspace := "apex", attributes := [("id", "b2")] }
      : VfComponentUsage) ∈ (parse 9 (some tripleBlocksTree) "").components := by
  decide

/-- Claim C4 (amended): the containment discipline holds for every block
entry other than the one on top of the stack — a traversal step never
alters the entry of any `pageBlocks` index that is not the active top,
so a component is never recorded in an ancestor (or unrelated) block —
and an attribute-free non-`pageBlock` component element processed with
block `i` active is appended to block `i` exactly; a nested `pageBlock`
element, however, is attached to no block at all (the counterexample). -/
theorem c4_component_containment :
    (∀ (n : Nat) (v : JVal) (stack : List Nat) (ctx : String) (st : VfParsedInfo) (i : Nat),
      i < st.pageBlocks.length → some i ≠ stack.head? →
      (traverseVal n stack ctx st v).pageBlocks[i]? = st.pageBlocks[i]?) ∧
    (∀ (fuel : Nat) (ns nm ctx : String) (stack : List Nat) (i : Nat) (st : VfParsedInfo),
      ':' ∉ ns.data → ':' ∉ nm.data → ns ≠ "" → nm ≠ "" →
      ¬(ns = "apex" ∧ nm = "pageBlock") → stack.head? = some i →
      (traverseVal (fuel + 1) stack ctx st (.obj [(ns ++ ":" ++ nm, .obj [])])).pageBlocks =
        modifyAt st.pageBlocks i
          (fun b => { b with components :=
            b.components ++ [{ name := nm, nspace := ns, attributes := [] }] })) :=
  ⟨fun n v stack ctx st i hi hne => ((traverseVal_frame n) v stack ctx st).2 i hi hne,
   fun fuel ns nm ctx stack i st hns hnm hnse hnme hnotpb htop =>
     (traverse_attaches_to_top fuel ns nm ctx stack i st hns hnm hnse hnme hnotpb htop).2⟩

/-- Witness for the amended C4: a non-active block entry survives a
traversal step unchanged, and a `commandButton` processed with block 0
active lands in block 0. -/
theorem c4_component_containment_witness :
    (traverseVal 1 [] "page" oneBlockState (.str "s")).pageBlocks[0]? =
      oneBlockState.pageBlocks[0]? ∧
    (traverseVal 1 [0] "page" oneBlockState
        (.obj [("apex" ++ ":" ++ "commandButton", .obj [])])).pageBlocks =
      modifyAt oneBlockState.pageBlocks 0
        (fun b => { b with components :=
          b.components ++ [{ name := "commandButton", nspace := "apex", attributes := [] }] }) :=
  ⟨c4_component_containment.1 1 (.str "s") [] "page" oneBlockState 0 (by decide) (by decide),
   c4_component_containment.2 0 "apex" "commandButton" "page" [0] 0 oneBlockState
     (by decide) (by decide) (by decide) (by decide) (by decide) rfl⟩

/-! ## Claim C5 -/

set_option maxRecDepth 10000 in
/-- Claim C5 (counterexample): in a page with an `Inner` block nested in
an `Outer` block, the inner `pageBlock` is a component encountered while
the outer block is active, yet the outer block's `components` stays
empty — a nested `pageBlock` is never appended to the enclosing block's
`components` (the branch `continue`s before the attach); the inner
block's own child is attached normally. -/
theorem c5_counterexample_nested_block_not_attached :
    (parse 9 (some nestedBlocksTree) "").pageBlocks =
      [{ title := some "Outer", id := none, components := [] },
       { title := some "Inner", id := none,
         components := [{ name := "inputText", nspace := "apex",
                          attributes := [("value", "\x7b!x\x7d")] }] }] ∧
    ({ name := "pageBlock", nspace := "apex", attributes := [("title", "Inner")] }
      : VfComponentUsage) ∈ (parse 9 (some nestedBlocksTree) "").components := by
  decide

/-- Claim C5 (amended): every attribute-free non-`pageBlock` component
element processed while a block is active (stack top `i`) is appended
both to the global `components` list and to the `components` of the
active block `i`; nested `pageBlock` elements are the exception shown by
the counterexample. -/
theorem c5_component_appended_to_active_block
    (fuel : Nat) (ns nm ctx : String) (stack : List Nat) (i : Nat) (st : VfParsedInfo)
    (hns : ':' ∉ ns.data) (hnm : ':' ∉ nm.data)
    (hnse : ns ≠ "") (hnme : nm ≠ "")
    (hnotpb : ¬(ns = "apex" ∧ nm = "pageBlock"))
    (htop : stack.head? = some i) :
    (traverseVal (fuel + 1) stack ctx st (.obj [(ns ++ ":" ++ nm, .obj [])])).components =
      st.components ++ [{ name := nm, nspace := ns, attributes := [] }] ∧
    (traverseVal (fuel + 1) stack ctx st (.obj [(ns ++ ":" ++ nm, .obj [])])).pageBlocks =
      modifyAt st.pageBlocks i
        (fun b => { b with components :=
          b.components ++ [{ name := nm, nspace := ns, attributes := [] }] }) :=
  traverse_attaches_to_top fuel ns nm ctx stack i st hns hnm hnse hnme hnotpb htop

/-- Witness for the amended C5: an `outputText` processed with block 0
active is appended to the global list and to block 0. -/
theorem c5_component_appended_witness :
    (traverseVal 1 [0] "page" oneBlockState
        (.obj [("apex" ++ ":" ++ "outputText", .obj [])])).components =
      oneBlockState.components ++
        [{ name := "outputText", nspace := "apex", attributes := [] }] ∧
    (traverseVal 1 [0] "page" oneBlockState
        (.obj [("apex" ++ ":" ++ "outputText", .obj [])])).pageBlocks =
      modifyAt oneBlockState.pageBlocks 0
        (fun b => { b with components :=
          b.components ++ [{ name := "outputText", nspace := "apex", attributes := [] }] }) :=
  c5_component_appended_to_active_block 0 "apex" "outputText" "page" [0] 0 oneBlockState
    (by decide) (by decide) (by decide) (by decide) (by decide) rfl

/-! ## Set-field shapes of the two parse paths -/

theorem fallbackExtract_set_fields (c : String) (r : VfParsedInfo) :
    (fallbackExtract c r).inputBindings.Nodup ∧
    (fallbackExtract c r).buttonActions.Nodup ∧
    (fallbackExtract c r).scripts.Nodup ∧
    (fallbackExtract c r).templateFragments = r.templateFragments ∧
    (fallbackExtract c r).sObjectReferences = r.sObjectReferences ∧
    (fallbackExtract c r).detailedFieldReferences = r.detailedFieldReferences ∧
    (fallbackExtract c r).customComponents =
      (basicCompsGo [] r.components r.customComponents (scanComps c.data)).2 := by
  refine ⟨?_, ?_, ?_, ?_, ?_, ?_, ?_⟩ <;>
    simp [fallbackExtract, extractAjaxInteractions, extractInputBindingsAndButtonActions,
          extractScriptTags, extractApexExpressions_eq, _extractBasicVfInfo_eq,
          jsSetDedup_nodup]

theorem treePathFinish_set_fields (r : VfParsedInfo) :
    (treePathFinish r).apexExpressions.Nodup ∧
    (treePathFinish r).inputBindings.Nodup ∧
    (treePathFinish r).buttonActions.Nodup ∧
    (treePathFinish r).customComponents.Nodup ∧
    (treePathFinish r).sObjectReferences.Nodup ∧
    (treePathFinish r).detailedFieldReferences.Nodup ∧
    (treePathFinish r).templateFragments = r.templateFragments ∧
    (treePathFinish r).scripts = r.scripts := by
  refine ⟨?_, jsSetDedup_nodup _, jsSetDedup_nodup _, jsSetDedup_nodup _,
          (processFieldReferences_nodup _).1, (processFieldReferences_nodup _).2, rfl, rfl⟩
  rw [show (treePathFinish r).apexExpressions =
      uniqueAndSortExpressions r.apexExpressions from
    processFieldReferences_apexExpressions _]
  exact uniqueAndSortExpressions_nodup _

theorem treePathCollect_set_fields (fuel : Nat) (pageTag : JVal) (content : String) :
    (treePathCollect fuel pageTag content).templateFragments =
      extractTemplateFragments content ∧
    (treePathCollect fuel pageTag content).scripts.Nodup := by
  unfold treePathCollect traverseNode
  have h := traverseVal_const fuel pageTag []
  constructor
  · exact (h "apex:page" _).1.trans rfl
  · rw [(h "apex:page" _).2]
    exact jsSetDedup_nodup _


/-! ## Claim C3 -/

set_option maxRecDepth 10000 in
/-- Claim C3 (counterexample): on the fallback path the claim's dedup
invariant fails for `apexExpressions`: the fallback sequence pushes every
classified expression content without any deduplication (only the tree
path applies `uniqueAndSortExpressions`), so an input repeating the same
function expression yields a duplicated entry. -/
theorem c3_counterexample_fallback_duplicate_expression :
    (parse 9 none "x \x7b!IF(a)\x7d \x7b!IF(a)\x7d").apexExpressions = ["IF(a)", "IF(a)"] ∧
    ¬ (parse 9 none "x \x7b!IF(a)\x7d \x7b!IF(a)\x7d").apexExpressions.Nodup := by
  decide

/-- Claim C3 (amended): on every input and both parse routes, the seven
set-typed fields `inputBindings`, `buttonActions`, `customComponents`,
`sObjectReferences`, `detailedFieldReferences`, `templateFragments` and
`scripts` of the result contain no duplicates; `apexExpressions` is
duplicate-free whenever the tree path ran (a truthy `apex:page` root),
while on the fallback path it can repeat (the counterexample). -/
theorem c3_set_fields_nodup (fuel : Nat) (d : Option JVal) (content : String) :
    (parse fuel d content).inputBindings.Nodup ∧
    (parse fuel d content).buttonActions.Nodup ∧
    (parse fuel d content).customComponents.Nodup ∧
    (parse fuel d content).sObjectReferences.Nodup ∧
    (parse fuel d content).detailedFieldReferences.Nodup ∧
    (parse fuel d content).templateFragments.Nodup ∧
    (parse fuel d content).scripts.Nodup ∧
    (∀ v, d = some v → jsTruthyVal (jlookup v "apex:page") = true →
      (parse fuel d content).apexExpressions.Nodup) := by
  have hf := fallbackExtract_set_fields content createEmptyResult
  have hfc : (fallbackExtract content createEmptyResult).customComponents.Nodup := by
    rw [hf.2.2.2.2.2.2]
    exact basicCompsGo_custom_nodup _ [] _ _ List.nodup_nil
      (fun x hx => absurd hx (List.not_mem_nil x))
  have hfall : (fallbackExtract content createEmptyResult).inputBindings.Nodup ∧
      (fallbackExtract content createEmptyResult).buttonActions.Nodup ∧
      (fallbackExtract content createEmptyResult).customComponents.Nodup ∧
      (fallbackExtract content createEmptyResult).sObjectReferences.Nodup ∧
      (fallbackExtract content createEmptyResult).detailedFieldReferences.Nodup ∧
      (fallbackExtract content createEmptyResult).templateFragments.Nodup ∧
      (fallbackExtract content createEmptyResult).scripts.Nodup :=
    ⟨hf.1, hf.2.1, hfc,
     by rw [hf.2.2.2.2.1]; exact List.nodup_nil,
     by rw [hf.2.2.2.2.2.1]; exact List.nodup_nil,
     by rw [hf.2.2.2.1]; exact List.nodup_nil,
     hf.2.2.1⟩
  cases d with
  | none =>
    exact ⟨hfall.1, hfall.2.1, hfall.2.2.1, hfall.2.2.2.1, hfall.2.2.2.2.1,
           hfall.2.2.2.2.2.1, hfall.2.2.2.2.2.2, fun v hv => nomatch hv⟩
  | some v =>
    cases v with
    | str s =>
      refine ⟨hfall.1, hfall.2.1, hfall.2.2.1, hfall.2.2.2.1, hfall.2.2.2.2.1,
              hfall.2.2.2.2.2.1, hfall.2.2.2.2.2.2, fun w hw htw => ?_⟩
      injection hw with he
      subst he
      simp [jlookup, jsTruthyVal] at htw
    | arr items =>
      refine ⟨hfall.1, hfall.2.1, hfall.2.2.1, hfall.2.2.2.1, hfall.2.2.2.2.1,
              hfall.2.2.2.2.2.1, hfall.2.2.2.2.2.2, fun w hw htw => ?_⟩
      injection hw with he
      subst he
      simp [jlookup, jsTruthyVal] at htw
    | obj fields =>
      cases hj : jlookup (.obj fields) "apex:page" with
      | none =>
        have hroute : parse fuel (some (.obj fields)) content =
            fallbackExtract content createEmptyResult := by
          simp [parse, hj]
        rw [hroute]
        refine ⟨hfall.1, hfall.2.1, hfall.2.2.1, hfall.2.2.2.1, hfall.2.2.2.2.1,
                hfall.2.2.2.2.2.1, hfall.2.2.2.2.2.2, fun w hw htw => ?_⟩
        injection hw with he
        subst he
        rw [hj] at htw
        simp [jsTruthyVal] at htw
      | some pageTag =>
        by_cases ht : jsTruthyVal (some pageTag) = true
        · have hroute : parse fuel (some (.obj fields)) content =
              treePathFinish (treePathCollect fuel pageTag content) := by
            simp [parse, hj, ht]
          have htf := treePathFinish_set_fields (treePathCollect fuel pageTag content)
          have hcc := treePathCollect_set_fields fuel pageTag content
          rw [hroute]
          refine ⟨htf.2.1, htf.2.2.1, htf.2.2.2.1, htf.2.2.2.2.1, htf.2.2.2.2.2.1,
                  ?_, ?_, fun _ _ _ => htf.1⟩
          · rw [htf.2.2.2.2.2.2.1, hcc.1]
            exact jsSetDedup_nodup _
          · rw [htf.2.2.2.2.2.2.2]
            exact hcc.2
        · have ht' : jsTruthyVal (some pageTag) = false := by
            cases hb : jsTruthyVal (some pageTag)
            · rfl
            · exact absurd hb ht
          have hroute : parse fuel (some (.obj fields)) content =
              fallbackExtract content createEmptyResult := by
            simp [parse, hj, ht']
          rw [hroute]
          refine ⟨hfall.1, hfall.2.1, hfall.2.2.1, hfall.2.2.2.1, hfall.2.2.2.2.1,
                  hfall.2.2.2.2.2.1, hfall.2.2.2.2.2.2, fun w hw htw => ?_⟩
          injection hw with he
          subst he
          rw [hj] at htw
          exact absurd htw ht

/-- Witness for the amended C3 on the one-block page (tree path, so all
eight fields are covered). -/
theorem c3_set_fields_nodup_witness :
    (parse 2 (some pbTree) "x").inputBindings.Nodup ∧
    (parse 2 (some pbTree) "x").buttonActions.Nodup ∧
    (parse 2 (some pbTree) "x").customComponents.Nodup ∧
    (parse 2 (some pbTree) "x").sObjectReferences.Nodup ∧
    (parse 2 (some pbTree) "x").detailedFieldReferences.Nodup ∧
    (parse 2 (some pbTree) "x").templateFragments.Nodup ∧
    (parse 2 (some pbTree) "x").scripts.Nodup ∧
    (parse 2 (some pbTree) "x").apexExpressions.Nodup := by
  have h := c3_set_fields_nodup 2 (some pbTree) "x"
  exact ⟨h.1, h.2.1, h.2.2.1, h.2.2.2.1, h.2.2.2.2.1, h.2.2.2.2.2.1, h.2.2.2.2.2.2.1,
         h.2.2.2.2.2.2.2 pbTree rfl (by decide)⟩


/-! ## Claim C10 -/

/-- Claim C10: every `contentPreview` in the returned result is at most
123 characters: a preview from a direct `#text` child is at most 100
content characters plus the 3-character ellipsis (at most 103), a preview
from the JSON structural summary is at most 120 plus the ellipsis, and
the regex-fallback panel previews are at most 100 plus the ellipsis. -/
theorem c10_contentPreview_bounded (fuel : Nat) (d : Option JVal) (content : String)
    (p : OutputPanel) (hp : p ∈ (parse fuel d content).outputPanels)
    (s : String) (hs : p.contentPreview = some s) : strLen s ≤ 123 := by
  have hfb : ∀ q ∈ (fallbackExtract content createEmptyResult).outputPanels,
      ∀ t, q.contentPreview = some t → strLen t ≤ 123 := by
    intro q hq t htq
    rw [fallbackExtract_panels] at hq
    rcases List.mem_append.mp hq with hm | hm
    · exact absurd hm (List.not_mem_nil q)
    · exact Nat.le_trans (outputPanelScanGo_bound _ _ q hm t htq) (by omega)
  cases d with
  | none => exact hfb p hp s hs
  | some v =>
    cases v with
    | str t2 => exact hfb p hp s hs
    | arr items => exact hfb p hp s hs
    | obj fields =>
      cases hj : jlookup (.obj fields) "apex:page" with
      | none =>
        have hroute : parse fuel (some (.obj fields)) content =
            fallbackExtract content createEmptyResult := by
          simp [parse, hj]
        rw [hroute] at hp
        exact hfb p hp s hs
      | some pageTag =>
        by_cases ht : jsTruthyVal (some pageTag) = true
        · have hroute : parse fuel (some (.obj fields)) content =
              treePathFinish (treePathCollect fuel pageTag content) := by
            simp [parse, hj, ht]
          rw [hroute] at hp
          have hcoll : PanelsBound (treePathCollect fuel pageTag content) := by
            show PanelsBound (traverseVal fuel [] "apex:page" _ pageTag)
            exact traverseVal_panels fuel pageTag [] "apex:page" _
              (fun q hq => absurd hq (List.not_mem_nil q))
          have hfin : (treePathFinish (treePathCollect fuel pageTag content)).outputPanels =
              (treePathCollect fuel pageTag content).outputPanels := rfl
          rw [hfin] at hp
          exact hcoll p hp s hs
        · have ht' : jsTruthyVal (some pageTag) = false := by
            cases hb : jsTruthyVal (some pageTag)
            · rfl
            · exact absurd hb ht
          have hroute : parse fuel (some (.obj fields)) content =
              fallbackExtract content createEmptyResult := by
            simp [parse, hj, ht']
          rw [hroute] at hp
          exact hfb p hp s hs

set_option maxRecDepth 10000 in
/-- Witness for C10 at a concrete fallback panel. -/
theorem c10_contentPreview_bounded_witness :
    ({ id := some "p", layout := none, contentPreview := some "hi" } : OutputPanel) ∈
      (parse 3 none "<apex:outputPanel id=\"p\">hi</apex:outputPanel>").outputPanels ∧
    strLen "hi" ≤ 123 :=
  ⟨by decide,
   c10_contentPreview_bounded 3 none "<apex:outputPanel id=\"p\">hi</apex:outputPanel>"
     { id := some "p", layout := none, contentPreview := some "hi" } (by decide) "hi" rfl⟩


/-! ## The two component-collection strategies on the rendered family -/

theorem ne_lt_of_compChar (c : Char) (h : isCompChar c = true) : c ≠ '<' := by
  intro he
  subst he
  exact absurd h (by decide)

theorem scanComps_skip (l m : List Char) (h : ∀ c ∈ l, c ≠ '<') :
    scanComps (l ++ m) = scanComps m := by
  induction l with
  | nil => rfl
  | cons a l ih =>
    have ha := h a (by simp)
    show (if a = '<' then _ else []) ++ scanComps (l ++ m) = _
    rw [if_neg ha, ih (fun c hc => h c (by simp [hc]))]
    rfl

theorem scanComps_tag_at (ns nm : String) (stop : Char) (tail : List Char)
    (hns : ns.data ≠ []) (hnm : nm.data ≠ [])
    (hcs : ∀ c ∈ ns.data, isCompChar c = true) (hcm : ∀ c ∈ nm.data, isCompChar c = true)
    (hstop : isCompChar stop = false) :
    scanComps ('<' :: (ns.data ++ ':' :: (nm.data ++ stop :: tail))) =
      (ns, nm) :: scanComps (ns.data ++ ':' :: (nm.data ++ stop :: tail)) := by
  have ht := takeWhile_append_stop ns.data ':' (nm.data ++ stop :: tail) hcs (by decide)
  have hd := dropWhile_append_stop ns.data ':' (nm.data ++ stop :: tail) hcs (by decide)
  have ht2 := takeWhile_append_stop nm.data stop tail hcm hstop
  have hc : (decide (ns.data ≠ []) && decide (nm.data ≠ [])) = true := by
    simp [hns, hnm]
  show (if ('<' : Char) = '<' then _ else []) ++ _ = _
  rw [if_pos rfl, ht, hd]
  simp only [ht2, hc, if_true]
  rfl



theorem scanComps_tags :
    ∀ (pairs : List (String × String)) (m : List Char),
      (∀ p ∈ pairs, p.1.data ≠ [] ∧ p.2.data ≠ [] ∧
        (∀ c ∈ p.1.data, isCompChar c = true) ∧ (∀ c ∈ p.2.data, isCompChar c = true)) →
      scanComps m = [] → scanComps (tagsData pairs ++ m) = pairs := by
  intro pairs
  induction pairs with
  | nil =>
    intro m _ hm
    simpa [tagsData] using hm
  | cons p rest ih =>
    intro m h hm
    obtain ⟨ns, nm⟩ := p
    obtain ⟨h1, h2, h3, h4⟩ := h (ns, nm) (List.mem_cons_self _ _)
    have hrest := ih m (fun q hq => h q (List.mem_cons_of_mem _ hq)) hm
    have hshape : (tagsData ((ns, nm) :: rest) ++ m) =
        '<' :: (ns.data ++ ':' :: (nm.data ++ '/' :: ('>' :: (tagsData rest ++ m)))) := by
      simp [tagsData]
    rw [hshape, scanComps_tag_at ns nm '/' ('>' :: (tagsData rest ++ m)) h1 h2 h3 h4 (by decide)]
    congr 1
    rw [show ns.data ++ ':' :: (nm.data ++ '/' :: ('>' :: (tagsData rest ++ m))) =
        (ns.data ++ ':' :: (nm.data ++ ['/', '>'])) ++ (tagsData rest ++ m) by simp]
    rw [scanComps_skip _ _ ?_]
    · exact hrest
    · intro c hc
      rcases List.mem_append.mp hc with hca | hcb
      · exact ne_lt_of_compChar c (h3 c hca)
      · rcases List.mem_cons.mp hcb with he | hcc
        · subst he; decide
        · rcases List.mem_append.mp hcc with hcd | hce
          · exact ne_lt_of_compChar c (h4 c hcd)
          · rcases List.mem_cons.mp hce with he | hcf
            · subst he; decide
            · rcases List.mem_cons.mp hcf with he | hcg
              · subst he; decide
              · exact absurd hcg (List.not_mem_nil c)

theorem scanComps_renderPage (pairs : List (String × String))
    (h : ∀ p ∈ pairs, p.1.data ≠ [] ∧ p.2.data ≠ [] ∧
      (∀ c ∈ p.1.data, isCompChar c = true) ∧ (∀ c ∈ p.2.data, isCompChar c = true)) :
    scanComps (renderPage pairs).data = ("apex", "page") :: pairs := by
  have hshape : (renderPage pairs).data =
      '<' :: ("apex".data ++ ':' :: ("page".data ++ '>' ::
        (tagsData pairs ++ "</apex:page>".data))) := rfl
  rw [hshape, scanComps_tag_at "apex" "page" '>' (tagsData pairs ++ "</apex:page>".data)
      (by decide) (by decide) (by decide) (by decide) (by decide)]
  congr 1
  rw [show "apex".data ++ ':' :: ("page".data ++ '>' :: (tagsData pairs ++ "</apex:page>".data)) =
      ("apex".data ++ ':' :: ("page".data ++ ['>'])) ++ (tagsData pairs ++ "</apex:page>".data)
    by simp]
  rw [scanComps_skip _ _ (by decide)]
  exact scanComps_tags pairs _ h (by decide)

theorem basicCompsGo_fresh :
    ∀ (pairs : List (String × String)) (seen : List String) (comps : List VfComponentUsage)
      (custom : List String),
      (∀ p ∈ pairs, (p.1 ++ ":" ++ p.2) ∉ seen) →
      (pairs.map (fun p => p.1 ++ ":" ++ p.2)).Nodup →
      (basicCompsGo seen comps custom pairs).1 =
        comps ++ pairs.map (fun p => { name := p.2, nspace := p.1, attributes := [] }) := by
  intro pairs
  induction pairs with
  | nil =>
    intro seen comps custom _ _
    simp [basicCompsGo]
  | cons p rest ih =>
    intro seen comps custom hfresh hnd
    obtain ⟨ns, nm⟩ := p
    have hk : (ns ++ ":" ++ nm) ∉ seen := hfresh (ns, nm) (List.mem_cons_self _ _)
    simp only [List.map_cons] at hnd
    have hfresh2 : ∀ q ∈ rest, (q.1 ++ ":" ++ q.2) ∉ ((ns ++ ":" ++ nm) :: seen) := by
      intro q hq hmem
      rcases List.mem_cons.mp hmem with he | hs
      · exact (List.nodup_cons.mp hnd).1 (he ▸ List.mem_map_of_mem _ hq)
      · exact hfresh q (List.mem_cons_of_mem _ hq) hs
    simp only [basicCompsGo, hk, if_false]
    rw [ih ((ns ++ ":" ++ nm) :: seen) _ _ hfresh2 (List.nodup_cons.mp hnd).2]
    simp



theorem keyStep_flat_components (fuel : Nat) (ctx : String) (st : VfParsedInfo)
    (ns nm : String) (hns : ':' ∉ ns.data) (hnm : ':' ∉ nm.data)
    (hnse : ns ≠ "") (hnme : nm ≠ "") :
    (keyStep fuel (traverseVal fuel) [] ctx st (ns ++ ":" ++ nm) (.obj [])).components =
      st.components ++ [{ name := nm, nspace := ns, attributes := [] }] := by
  have hd : decide ((ns ++ ":" ++ nm) ≠ "#text") = true := by
    simp [compKey_ne_text ns nm]
  simp only [keyStep, keyStepComponent, compKey_hasColon ns nm,
             compNspace_append ns nm hns, compName_append ns nm hns hnm,
             parseAttributes, parseAttrFields, hd,
             recurseChildren, traverseVal_obj_nil,
             pushComponentUpd, pushCustomUpd, formUpd, actionSupportUpd, outputPanelUpd,
             pushBlockUpd, attachToTop, hnse, hnme,
             Bool.and_true, Bool.true_and, if_true, Bool.false_eq_true, if_false]
  split_ifs <;> simp_all [createEmptyResult]

theorem traverseVal_flat_components (fuel : Nat) (ctx : String) :
    ∀ (pairs : List (String × String)) (st : VfParsedInfo),
      (∀ p ∈ pairs, ':' ∉ p.1.data ∧ ':' ∉ p.2.data ∧ p.1 ≠ "" ∧ p.2 ≠ "") →
      (traverseVal (fuel + 1) [] ctx st
        (.obj (pairs.map (fun p => (p.1 ++ ":" ++ p.2, JVal.obj []))))).components =
        st.components ++ pairs.map (fun p => { name := p.2, nspace := p.1, attributes := [] }) := by
  intro pairs
  induction pairs with
  | nil =>
    intro st _
    simp [traverseVal_obj_nil]
  | cons p rest ih =>
    intro st h
    obtain ⟨ns, nm⟩ := p
    obtain ⟨h1, h2, h3, h4⟩ := h (ns, nm) (List.mem_cons_self _ _)
    show (pairsLoop fuel (traverseVal fuel) [] ctx st _).components = _
    simp only [List.map_cons, pairsLoop]
    have hstep := keyStep_flat_components fuel ctx st ns nm h1 h2 h3 h4
    have hrest := ih (keyStep fuel (traverseVal fuel) [] ctx st (ns ++ ":" ++ nm) (.obj []))
      (fun q hq => h q (List.mem_cons_of_mem _ hq))
    show (pairsLoop fuel (traverseVal fuel) [] ctx
      (keyStep fuel (traverseVal fuel) [] ctx st (ns ++ ":" ++ nm) (.obj []))
      (rest.map (fun p => (p.1 ++ ":" ++ p.2, JVal.obj [])))).components = _
    rw [show (pairsLoop fuel (traverseVal fuel) [] ctx
        (keyStep fuel (traverseVal fuel) [] ctx st (ns ++ ":" ++ nm) (.obj []))
        (rest.map (fun p => (p.1 ++ ":" ++ p.2, JVal.obj [])))).components =
        (traverseVal (fuel + 1) [] ctx
          (keyStep fuel (traverseVal fuel) [] ctx st (ns ++ ":" ++ nm) (.obj []))
          (.obj (rest.map (fun p => (p.1 ++ ":" ++ p.2, JVal.obj []))))).components from rfl]
    rw [hrest, hstep]
    simp



theorem parse_render_tree_components (fuel : Nat) (pairs : List (String × String))
    (h : ∀ p ∈ pairs, ':' ∉ p.1.data ∧ ':' ∉ p.2.data ∧ p.1 ≠ "" ∧ p.2 ≠ "") :
    (parse (fuel + 1) (some (pagedToJVal pairs)) (renderPage pairs)).components =
      pairs.map (fun p => { name := p.2, nspace := p.1, attributes := [] }) := by
  have hkey : (parse (fuel + 1) (some (pagedToJVal pairs)) (renderPage pairs)).components =
      (traverseVal (fuel + 1) [] "apex:page"
        (extractScriptTags (renderPage pairs)
          { assignPageAttributesFromXml (fuel + 1)
              (.obj (pairs.map (fun p => (p.1 ++ ":" ++ p.2, JVal.obj []))))
              createEmptyResult (renderPage pairs) with
            templateFragments := extractTemplateFragments (renderPage pairs) })
        (.obj (pairs.map (fun p => (p.1 ++ ":" ++ p.2, JVal.obj []))))).components := rfl
  rw [hkey, traverseVal_flat_components fuel "apex:page" pairs _ h]
  exact List.nil_append _

theorem fallbackExtract_components (c : String) (r : VfParsedInfo) :
    (fallbackExtract c r).components =
      (basicCompsGo [] r.components r.customComponents (scanComps c.data)).1 := by
  simp [fallbackExtract, extractAjaxInteractions, extractInputBindingsAndButtonActions,
        extractScriptTags, extractApexExpressions_eq, _extractBasicVfInfo_eq]

theorem parse_render_fallback_components (fuel : Nat) (pairs : List (String × String))
    (h : ∀ p ∈ pairs, p.1.data ≠ [] ∧ p.2.data ≠ [] ∧
      (∀ c ∈ p.1.data, isCompChar c = true) ∧ (∀ c ∈ p.2.data, isCompChar c = true))
    (hnd : ((("apex", "page") :: pairs).map (fun p => p.1 ++ ":" ++ p.2)).Nodup) :
    (parse fuel none (renderPage pairs)).components =
      { name := "page", nspace := "apex", attributes := [] } ::
        pairs.map (fun p => { name := p.2, nspace := p.1, attributes := [] }) := by
  have h0 : (parse fuel none (renderPage pairs)).components =
      (basicCompsGo [] [] [] (scanComps (renderPage pairs).data)).1 := by
    show (fallbackExtract (renderPage pairs) createEmptyResult).components = _
    rw [fallbackExtract_components]
    rfl
  rw [h0, scanComps_renderPage pairs h,
      basicCompsGo_fresh (("apex", "page") :: pairs) [] [] []
        (fun q _ hmem => absurd hmem (List.not_mem_nil _)) hnd]
  simp



set_option maxRecDepth 10000 in
/-- Claim C9 (counterexample): on the page-with-form input - parsed by
both strategies - the fallback component-name set contains `apex:page`
(the raw-text scan matches the root tag itself) while the tree path,
which starts traversal inside the `apex:page` element, does not; the two
sets therefore differ even on this simple input. -/
theorem c9_counterexample_root_in_fallback_only :
    ("apex:page" ∈ (parse 9 none pageFormContent).components.map
        (fun c => c.nspace ++ ":" ++ c.name)) ∧
    ("apex:page" ∉ (parse 9 (some pageFormTree) pageFormContent).components.map
        (fun c => c.nspace ++ ":" ++ c.name)) ∧
    (parse 9 (some pageFormTree) pageFormContent).components.map
        (fun c => c.nspace ++ ":" ++ c.name) = ["apex:form"] ∧
    (parse 9 none pageFormContent).components.map
        (fun c => c.nspace ++ ":" ++ c.name) = ["apex:page", "apex:form"] := by
  decide

/-- Claim C9 (amended): on the family of well-formed pages made of
attribute-free distinct child tags under one `apex:page` root, the
fallback component-name list is exactly `apex:page` followed by the tree
path's component-name list: the two strategies agree on every real child
component, and differ exactly by the root tag, which only the raw-text
scan reports. -/
theorem c9_component_sets (fuel : Nat) (pairs : List (String × String))
    (h : ∀ p ∈ pairs, p.1.data ≠ [] ∧ p.2.data ≠ [] ∧
      (∀ c ∈ p.1.data, isCompChar c = true) ∧ (∀ c ∈ p.2.data, isCompChar c = true))
    (hnd : ((("apex", "page") :: pairs).map (fun p => p.1 ++ ":" ++ p.2)).Nodup) :
    ((parse (fuel + 1) (some (pagedToJVal pairs)) (renderPage pairs)).components.map
        (fun c => c.nspace ++ ":" ++ c.name) =
      pairs.map (fun p => p.1 ++ ":" ++ p.2)) ∧
    ((parse fuel none (renderPage pairs)).components.map
        (fun c => c.nspace ++ ":" ++ c.name) =
      "apex:page" :: pairs.map (fun p => p.1 ++ ":" ++ p.2)) ∧
    ("apex:page" ∉ (parse (fuel + 1) (some (pagedToJVal pairs))
        (renderPage pairs)).components.map (fun c => c.nspace ++ ":" ++ c.name)) ∧
    ("apex:page" ∈ (parse fuel none (renderPage pairs)).components.map
        (fun c => c.nspace ++ ":" ++ c.name)) := by
  have h2 : ∀ p ∈ pairs, ':' ∉ p.1.data ∧ ':' ∉ p.2.data ∧ p.1 ≠ "" ∧ p.2 ≠ "" := by
    intro p hp
    obtain ⟨h1, h2, h3, h4⟩ := h p hp
    refine ⟨fun hm => ?_, fun hm => ?_, fun he => h1 (by rw [he]),
            fun he => h2 (by rw [he])⟩
    · exact absurd (h3 ':' hm) (by decide)
    · exact absurd (h4 ':' hm) (by decide)
  have htree := parse_render_tree_components fuel pairs h2
  have hfall := parse_render_fallback_components fuel pairs h hnd
  have htreem : (parse (fuel + 1) (some (pagedToJVal pairs))
      (renderPage pairs)).components.map (fun c => c.nspace ++ ":" ++ c.name) =
      pairs.map (fun p => p.1 ++ ":" ++ p.2) := by
    rw [htree, List.map_map]
    rfl
  have hfallm : (parse fuel none (renderPage pairs)).components.map
      (fun c => c.nspace ++ ":" ++ c.name) =
      "apex:page" :: pairs.map (fun p => p.1 ++ ":" ++ p.2) := by
    rw [hfall]
    simp only [List.map_cons, List.map_map]
    rfl
  refine ⟨htreem, hfallm, ?_, ?_⟩
  · rw [htreem]
    simp only [List.map_cons] at hnd
    exact fun hm => (List.nodup_cons.mp hnd).1 hm
  · rw [hfallm]
    exact List.mem_cons_self _ _

/-- Witness for the amended C9 on the one-form family member. -/
theorem c9_component_sets_witness :
    ((parse 2 (some (pagedToJVal [("apex", "form")]))
        (renderPage [("apex", "form")])).components.map
        (fun c => c.nspace ++ ":" ++ c.name) = ["apex:form"]) ∧
    ((parse 1 none (renderPage [("apex", "form")])).components.map
        (fun c => c.nspace ++ ":" ++ c.name) = ["apex:page", "apex:form"]) ∧
    ("apex:page" ∉ (parse 2 (some (pagedToJVal [("apex", "form")]))
        (renderPage [("apex", "form")])).components.map
        (fun c => c.nspace ++ ":" ++ c.name)) ∧
    ("apex:page" ∈ (parse 1 none (renderPage [("apex", "form")])).components.map
        (fun c => c.nspace ++ ":" ++ c.name)) :=
  c9_component_sets 1 [("apex", "form")] (by decide) (by decide)

end VfParse
